import Mathlib

/-!
# Verification of the endpoint relationship analyzer

A shallow embedding of `app/utils/relationship_analyzer.py` (class
`RelationshipAnalyzer`) together with proofs about its scoring and
aggregation behaviour.

Conventions of the embedding:

* JSON values stored in the database's JSON columns (`request_schema`,
  `response_schema`, `parameters`, …) are modelled by the inductive type
  `JVal`.  A Python `dict` is an association list with (as in Python)
  unique keys; `JVal.null` stands for Python `None` / JSON null.
* Python exceptions are modelled by `Option`: a function that can raise
  returns `none` exactly on the inputs where the Python code raises.
* Python `float` scores are modelled by `ℚ`; every score computed by the
  analyzer is an exact ratio of small integers, so this is faithful.
* Python `set` results are modelled by `Finset`; where the iteration
  order of a set matters only up to set equality, the embedding keeps
  an underlying list and converts with `List.toFinset`.
-/

/-- A JSON value, as stored in the `JSON` columns of the models.
Mirrors the values Python's `json` module produces: `null`, booleans,
numbers (only integers occur in schemas; a numeric leaf's exact value is
never inspected by the analyzer), strings, arrays and objects. -/
inductive JVal where
  | null
  | bool (b : Bool)
  | num (n : Int)
  | str (s : String)
  | arr (elems : List JVal)
  | obj (fields : List (String × JVal))

mutual

/-- Structural equality of JSON values (Python `==` on parsed JSON). -/
def beqV : JVal → JVal → Bool
  | .null, .null => true
  | .bool a, .bool b => a == b
  | .num a, .num b => a == b
  | .str a, .str b => a == b
  | .arr xs, .arr ys => beqVList xs ys
  | .obj xs, .obj ys => beqVObj xs ys
  | _, _ => false

def beqVList : List JVal → List JVal → Bool
  | [], [] => true
  | x :: xs, y :: ys => beqV x y && beqVList xs ys
  | _, _ => false

def beqVObj : List (String × JVal) → List (String × JVal) → Bool
  | [], [] => true
  | (k, v) :: xs, (k', v') :: ys => k == k' && beqV v v' && beqVObj xs ys
  | _, _ => false

end

mutual

theorem beqV_iff : ∀ a b : JVal, beqV a b = true ↔ a = b
  | .null, .null => by simp [beqV]
  | .bool _, .bool _ => by simp [beqV]
  | .num _, .num _ => by simp [beqV]
  | .str _, .str _ => by simp [beqV]
  | .arr xs, .arr ys => by simp [beqV, beqVList_iff xs ys]
  | .obj xs, .obj ys => by simp [beqV, beqVObj_iff xs ys]
  | .null, .bool _ | .null, .num _ | .null, .str _ | .null, .arr _ | .null, .obj _
  | .bool _, .null | .bool _, .num _ | .bool _, .str _ | .bool _, .arr _ | .bool _, .obj _
  | .num _, .null | .num _, .bool _ | .num _, .str _ | .num _, .arr _ | .num _, .obj _
  | .str _, .null | .str _, .bool _ | .str _, .num _ | .str _, .arr _ | .str _, .obj _
  | .arr _, .null | .arr _, .bool _ | .arr _, .num _ | .arr _, .str _ | .arr _, .obj _
  | .obj _, .null | .obj _, .bool _ | .obj _, .num _ | .obj _, .str _ | .obj _, .arr _ => by
      simp [beqV]

theorem beqVList_iff : ∀ xs ys : List JVal, beqVList xs ys = true ↔ xs = ys
  | [], [] => by simp [beqVList]
  | [], _ :: _ => by simp [beqVList]
  | _ :: _, [] => by simp [beqVList]
  | x :: xs, y :: ys => by
      simp [beqVList, beqV_iff x y, beqVList_iff xs ys]

theorem beqVObj_iff : ∀ xs ys : List (String × JVal), beqVObj xs ys = true ↔ xs = ys
  | [], [] => by simp [beqVObj]
  | [], _ :: _ => by simp [beqVObj]
  | _ :: _, [] => by simp [beqVObj]
  | (k, v) :: xs, (k', v') :: ys => by
      simp [beqVObj, beqV_iff v v', beqVObj_iff xs ys, and_assoc]

end

instance : DecidableEq JVal :=
  fun a b => decidable_of_iff (beqV a b = true) (beqV_iff a b)

/-- Python `d[key]` / `key in d` on a dict: first (only) binding of `key`. -/
def dget : List (String × JVal) → String → Option JVal
  | [], _ => none
  | (k, v) :: rest, key => if k = key then some v else dget rest key

/-- Python truthiness of a JSON value (`if x:`): `None`, `False`, `0`,
empty string, empty list and empty dict are falsy. -/
def truthy : JVal → Bool
  | .null => false
  | .bool b => b
  | .num n => n != 0
  | .str s => !(s = "")
  | .arr xs => !(xs = [])
  | .obj kvs => !(kvs = [])

/-! ## Schema field extraction (`_extract_fields_from_schema`) -/

mutual

/-- Embeds `_extract_fields_from_schema(schema, prefix)`.

The Python function returns a `set`; the embedding returns the list of
added field paths (converted to a `Finset` by consumers), and `none`
where the Python code raises.  A non-dict schema yields the empty set.
For a dict, the code reads the keys `properties`, `items`, `allOf`,
`oneOf`, `anyOf`; the embedding walks the object's bindings and handles
each of those keys as it is met, which is the same thing because a
Python dict binds each key once and the handlers are independent.
The only raising branch: `schema["properties"].items()` when the value
of `properties` is not a dict (`AttributeError`); the `items` value and
the `allOf`/`oneOf`/`anyOf` values are guarded by `isinstance` checks
and malformed shapes there are silently skipped. -/
def extract_fields_from_schema : JVal → String → Option (List String)
  | .obj kvs, pre => extractFromBindings kvs pre
  | _, _ => some []

/-- Walk of one dict's bindings.  The `items` handler calls the top
function directly: the source guards the call with `isinstance(..., dict)`,
and on a non-dict the top function contributes the empty set anyway, so
the two are the same function. -/
def extractFromBindings : List (String × JVal) → String → Option (List String)
  | [], _ => some []
  | (k, v) :: rest, pre => do
      let here ←
        if k = "properties" then extractPropsVal v pre
        else if k = "items" then extract_fields_from_schema v (pre ++ "[]")
        else if k = "allOf" ∨ k = "oneOf" ∨ k = "anyOf" then extractSubsVal v pre
        else some []
      let restF ← extractFromBindings rest pre
      some (here ++ restF)

/-- `schema["properties"].items()`: loops over a dict value, raises
(`AttributeError`) on anything else. -/
def extractPropsVal : JVal → String → Option (List String)
  | .obj props, pre => extractProps props pre
  | _, _ => none

/-- The `properties` loop: each property name is emitted as
`prefix.name` (or bare `name` for an empty prefix) and the property's
schema is walked recursively with the new prefix (the source's
`isinstance(prop_schema, dict)` guard is subsumed: a non-dict property
schema contributes nothing). -/
def extractProps : List (String × JVal) → String → Option (List String)
  | [], _ => some []
  | (name, psch) :: rest, pre => do
      let fieldName := if pre = "" then name else pre ++ "." ++ name
      let nested ← extract_fields_from_schema psch fieldName
      let restF ← extractProps rest pre
      some (fieldName :: (nested ++ restF))

/-- An `allOf`/`oneOf`/`anyOf` value: only a list is looped over,
anything else is skipped by the `isinstance(..., list)` guard. -/
def extractSubsVal : JVal → String → Option (List String)
  | .arr subs, pre => extractSubs subs pre
  | _, _ => some []

/-- The `allOf`/`oneOf`/`anyOf` loop: dict members are walked with the
same prefix; the `isinstance(sub_schema, dict)` guard is subsumed as in
`extractProps`. -/
def extractSubs : List JVal → String → Option (List String)
  | [], _ => some []
  | s :: rest, pre => do
      let here ← extract_fields_from_schema s pre
      let restF ← extractSubs rest pre
      some (here ++ restF)

end

theorem extract_nested_example : extract_fields_from_schema
    (.obj [("properties", .obj [("a", .obj [("type", .str "object"),
      ("properties", .obj [("b", .obj [])])])])]) "" = some ["a", "a.b"] := by decide

theorem extract_items_example : extract_fields_from_schema
    (.obj [("properties", .obj [("a", .obj [("items", .obj
      [("properties", .obj [("b", .null)])])])])]) "" = some ["a", "a[].b"] := by decide

theorem extract_malformed_example :
    extract_fields_from_schema (.obj [("properties", .num 5)]) "" = none := by decide

theorem extract_nondict_example :
    extract_fields_from_schema (.str "junk") "" = some [] := by decide

/-! ## Endpoint records and `_extract_fields_from_endpoint` -/

/-- The columns of the `endpoints` table that the analyzer reads.
`request_schema`, `response_schema` and `parameters` are JSON columns;
`JVal.null` stands for SQL NULL / Python `None`. -/
structure Endpoint where
  id : ℕ
  service_id : ℕ
  path : String
  method : String
  request_schema : JVal
  response_schema : JVal
  parameters : JVal

/-- Whether a Python value can be added to a set (`set.add` raises
`TypeError` on unhashable values, i.e. dicts and lists). -/
def hashableV : JVal → Bool
  | .obj _ => false
  | .arr _ => false
  | _ => true

/-- The inner parameter loop: for each member of a parameter list,
a dict with a `name` key contributes `param["name"]` (whatever JSON
value that is — the parser can store `None` there); adding an
unhashable name raises. -/
def paramNames : List JVal → Option (List JVal)
  | [] => some []
  | p :: rest => do
      let restF ← paramNames rest
      match p with
      | .obj pkvs =>
          match dget pkvs "name" with
          | some v => if hashableV v then some (v :: restF) else none
          | none => some restF
      | _ => some restF

/-- One value of the parameters dict (`for param in param_list`):
iterating a list visits its members; iterating a string or a dict
visits strings (never dicts), contributing nothing; iterating `None`,
a bool or a number raises `TypeError`. -/
def paramListNames : JVal → Option (List JVal)
  | .arr ps => paramNames ps
  | .str _ => some []
  | .obj _ => some []
  | _ => none

/-- `endpoint.parameters.items()` loop: raises unless the value is a
dict; each location's list is scanned for parameter names. -/
def paramsListsNames : List (String × JVal) → Option (List JVal)
  | [] => some []
  | (_, pl) :: rest => do
      let here ← paramListNames pl
      let restF ← paramsListsNames rest
      some (here ++ restF)

def extractParamsFields : JVal → Option (List JVal)
  | .obj kvs => paramsListsNames kvs
  | _ => none

/-- Embeds `_extract_fields_from_endpoint`: the union of the fields of
the request schema, the response schema (when truthy) and the parameter
names (when `parameters` is truthy), as the list of added elements.
Schema field paths are strings; parameter names can be any hashable
JSON value, so the combined elements live in `JVal`. -/
def extract_field_list_from_endpoint (e : Endpoint) : Option (List JVal) := do
  let req ← if truthy e.request_schema then extract_fields_from_schema e.request_schema ""
            else some []
  let resp ← if truthy e.response_schema then extract_fields_from_schema e.response_schema ""
             else some []
  let par ← if truthy e.parameters then extractParamsFields e.parameters
            else some []
  some ((req ++ resp).map JVal.str ++ par)

/-- The field set of an endpoint (`_extract_fields_from_endpoint`'s
return value, a Python `set`). -/
def extract_fields_from_endpoint (e : Endpoint) : Option (Finset JVal) :=
  (extract_field_list_from_endpoint e).map List.toFinset

/-! ## Path cleaning and similarity (`_clean_path`, `_calculate_path_similarity`) -/

mutual

/-- Scan implementing Python's `re.sub` with the placeholder pattern of
`_clean_path` (an opening brace, one or more characters other than a
closing brace, then a closing brace): at an opening brace, look for the
matching closing brace; a match with non-empty content is dropped,
otherwise the brace is kept and scanning continues after it. -/
def stripPlaceholders : List Char → List Char
  | [] => []
  | c :: rest =>
      if c = '{' then placeholderScan [] rest else c :: stripPlaceholders rest

/-- Inside a potential placeholder: `buf` holds the characters read so
far (reversed).  A closing brace with non-empty content completes a
match (the whole placeholder is removed); a closing brace right after
the opening one is not a match (the pattern needs at least one inner
character), so both braces are kept; running out of input keeps the
unmatched opening brace and its tail verbatim. -/
def placeholderScan (buf : List Char) : List Char → List Char
  | [] => '{' :: buf.reverse
  | c :: rest =>
      if c = '}' then
        if buf = [] then '{' :: '}' :: stripPlaceholders rest
        else stripPlaceholders rest
      else placeholderScan (c :: buf) rest

end

/-- Embeds `_clean_path`: drop `placeholder` contents, strip all
trailing slashes (`rstrip('/')`), lowercase.  (`Char.toLower` agrees
with Python's `str.lower` on ASCII, which is what URL path templates
contain.) -/
def clean_path (path : String) : String :=
  let cleaned := stripPlaceholders path.toList
  let stripped := (cleaned.reverse.dropWhile (· = '/')).reverse
  String.mk (stripped.map Char.toLower)

/-- Python `str.split('/')`: cut at every separator occurrence, keeping
empty pieces (so `n` separators yield `n + 1` pieces). -/
def splitChar (sep : Char) (cur : List Char) : List Char → List String
  | [] => [String.mk cur.reverse]
  | c :: rest =>
      if c = sep then String.mk cur.reverse :: splitChar sep [] rest
      else splitChar sep (c :: cur) rest

/-- Python `path.split('/')` with falsy (empty) segments discarded. -/
def pathSegments (path : String) : List String :=
  (splitChar '/' [] path.toList).filter (fun s => s ≠ "")

/-- Python substring test `a in b`. -/
def isSubstrOf (a b : String) : Bool :=
  b.toList.tails.any (fun t => a.toList.isPrefixOf t)

/-- Embeds `_are_similar_segments`: both segments are placeholders
(start with an opening brace), or both are longer than 3 characters and
one contains the other. -/
def are_similar_segments (seg1 seg2 : String) : Bool :=
  if seg1.toList.head? = some '{' ∧ seg2.toList.head? = some '{' then true
  else if seg1.length > 3 ∧ seg2.length > 3 then
    isSubstrOf seg1 seg2 || isSubstrOf seg2 seg1
  else false

/-- The matched-segment count of `_calculate_path_similarity`: the loop
over `range(min_len)` is the zip of the two segment lists. -/
def commonSegmentCount (segments1 segments2 : List String) : ℕ :=
  (segments1.zip segments2).countP
    (fun p => p.1 == p.2 || are_similar_segments p.1 p.2)

/-- Embeds `_calculate_path_similarity`. -/
def calculate_path_similarity (path1 path2 : String) : ℚ :=
  let segments1 := pathSegments path1
  let segments2 := pathSegments path2
  if segments1 = [] ∧ segments2 = [] then 1
  else if segments1 = [] ∨ segments2 = [] then 0
  else
    let maxLen := max segments1.length segments2.length
    (commonSegmentCount segments1 segments2 : ℚ) / (maxLen : ℚ)

/-- The CRUD method set of `_analyze_crud_relationship`. -/
def crudMethods : List String := ["GET", "POST", "PUT", "DELETE", "PATCH"]

/-- Embeds `_analyze_crud_relationship`: 0.8 for different CRUD methods
on similar cleaned paths, else 0. -/
def analyze_crud_relationship (e1 e2 : Endpoint) : ℚ :=
  let path1_clean := clean_path e1.path
  let path2_clean := clean_path e2.path
  let path_similarity := calculate_path_similarity path1_clean path2_clean
  if path_similarity < 7/10 then 0
  else if e1.method ∈ crudMethods ∧ e2.method ∈ crudMethods then
    (if e1.method ≠ e2.method then 8/10 else 0)
  else 0

/-! ## Pairwise scoring (`_analyze_common_fields`, `_analyze_schema_similarity`,
`_analyze_data_flow`, `_analyze_endpoint_pair`) -/

/-- Result of `_analyze_common_fields`.  The metadata dict (field
counts, purely diagnostic and computed without further evaluation) is
not modelled. -/
structure CommonFieldsResult where
  score : ℚ
  common_fields : Finset JVal
deriving DecidableEq

/-- Embeds `_analyze_common_fields`: Jaccard index of the two field
sets, zero (with empty field list) when the intersection is empty. -/
def analyze_common_fields (e1 e2 : Endpoint) : Option CommonFieldsResult := do
  let fields1 ← extract_fields_from_endpoint e1
  let fields2 ← extract_fields_from_endpoint e2
  let common_fields := fields1 ∩ fields2
  if common_fields = ∅ then
    some ⟨0, ∅⟩
  else
    let total_unique := (fields1 ∪ fields2).card
    let score : ℚ := if 0 < total_unique then (common_fields.card : ℚ) / total_unique else 0
    some ⟨score, common_fields⟩

/-- Python `dict.update` on string-keyed dicts: existing keys keep
their position but take the updating dict's value; fresh keys are
appended in order. -/
def updateProps (base upd : List (String × JVal)) : List (String × JVal) :=
  base.map (fun kv =>
    match dget upd kv.1 with
    | some v => (kv.1, v)
    | none => kv)
  ++ upd.filter (fun kv => (dget base kv.1).isNone)

/-- The `properties` contribution of one schema column inside
`_get_combined_schema`: skipped when the column is falsy or has no
`properties` key; merged when `properties` is a dict; every other
truthy shape raises (`in` on a number or bool is a `TypeError`;
`schema["properties"]` on a list indexes with a string; slicing a
string with a string key after a successful substring test also
raises; `dict.update` with a non-dict JSON value raises — Python would
accept a list whose members are all key/value pairs, a shape that
cannot arise from a parsed schema and is modelled as a raise). -/
def combinedSchemaProps : JVal → Option (List (String × JVal))
  | .null => some []
  | .bool b => if b then none else some []
  | .num n => if n = 0 then some [] else none
  | .str s =>
      if s = "" then some []
      else if isSubstrOf "properties" s then none else some []
  | .arr xs =>
      if xs = [] then some []
      else if JVal.str "properties" ∈ xs then none else some []
  | .obj kvs =>
      if kvs = [] then some []
      else
        match dget kvs "properties" with
        | none => some []
        | some (.obj props) => some props
        | some _ => none

/-- Embeds `_get_combined_schema`: start from an object with a `type`
tag and empty `properties`, fold in the request then the response
properties, and return `None` (the inner `none`) when no properties
accumulated.  The outer `Option` is the exception level. -/
def get_combined_schema (e : Endpoint) : Option (Option JVal) := do
  let reqProps ← combinedSchemaProps e.request_schema
  let respProps ← combinedSchemaProps e.response_schema
  let merged := updateProps reqProps respProps
  if merged = [] then some none
  else some (some (.obj [("type", .str "object"), ("properties", .obj merged)]))

/-- Embeds `_calculate_schema_similarity`: Jaccard index of the two
extracted field sets, zero when either set is empty. -/
def calculate_schema_similarity (schema1 schema2 : JVal) : Option ℚ := do
  let l1 ← extract_fields_from_schema schema1 ""
  let l2 ← extract_fields_from_schema schema2 ""
  let fields1 := l1.toFinset
  let fields2 := l2.toFinset
  if fields1 = ∅ ∧ fields2 = ∅ then some 0
  else if fields1 = ∅ ∨ fields2 = ∅ then some 0
  else
    let intersection := fields1 ∩ fields2
    let union := fields1 ∪ fields2
    some (if union = ∅ then 0 else (intersection.card : ℚ) / union.card)

/-- Result of `_analyze_schema_similarity`.  The metadata (the two
schema complexity counts) is not modelled: complexity walks exactly the
`properties`/`items` structure that field extraction walks, so on any
input where the score below is defined the complexity computation also
terminates without raising, and its value feeds nothing else. -/
structure SchemaSimilarityResult where
  score : ℚ
deriving DecidableEq

/-- Embeds `_analyze_schema_similarity`: zero when either combined
schema is `None`, else the combined-schema similarity. -/
def analyze_schema_similarity (e1 e2 : Endpoint) : Option SchemaSimilarityResult := do
  let schema1 ← get_combined_schema e1
  let schema2 ← get_combined_schema e2
  match schema1, schema2 with
  | some s1, some s2 => do
      let similarity_score ← calculate_schema_similarity s1 s2
      some ⟨similarity_score⟩
  | _, _ => some ⟨0⟩

/-- Embeds `_calculate_schema_compatibility`: the fraction of the
input schema's fields that the output schema provides. -/
def calculate_schema_compatibility (output_schema input_schema : JVal) : Option ℚ := do
  let lo ← extract_fields_from_schema output_schema ""
  let li ← extract_fields_from_schema input_schema ""
  let output_fields := lo.toFinset
  let input_fields := li.toFinset
  if input_fields = ∅ then some 0
  else some (((output_fields ∩ input_fields).card : ℚ) / input_fields.card)

/-- The `flow_direction` metadata value of `_analyze_data_flow`
(`"1_to_2"`, `"2_to_1"`, `"crud_operations"`, or `None`). -/
inductive FlowDirection where
  | one_to_two
  | two_to_one
  | crud_operations
deriving DecidableEq

structure DataFlowResult where
  score : ℚ
  flow_direction : Option FlowDirection
deriving DecidableEq

/-- Embeds `_analyze_data_flow`: start from score 0 and no direction;
try response₁ → request₂, then response₂ → request₁ (each only when
both schemas are truthy), then the CRUD score, keeping the strictly
larger score each time.  The `path_similarity` metadata entry is a pure
computation and feeds nothing, so it is not carried. -/
def analyze_data_flow (e1 e2 : Endpoint) : Option DataFlowResult := do
  let st0 : ℚ × Option FlowDirection := (0, none)
  let st1 ←
    if truthy e1.response_schema && truthy e2.request_schema then do
      let score_1_to_2 ← calculate_schema_compatibility e1.response_schema e2.request_schema
      some (if st0.1 < score_1_to_2 then (score_1_to_2, some FlowDirection.one_to_two) else st0)
    else some st0
  let st2 ←
    if truthy e2.response_schema && truthy e1.request_schema then do
      let score_2_to_1 ← calculate_schema_compatibility e2.response_schema e1.request_schema
      some (if st1.1 < score_2_to_1 then (score_2_to_1, some FlowDirection.two_to_one) else st1)
    else some st1
  let crud_score := analyze_crud_relationship e1 e2
  let stF := if st2.1 < crud_score then (crud_score, some FlowDirection.crud_operations) else st2
  some ⟨stF.1, stF.2⟩

inductive RelationshipType where
  | common_fields
  | similar_schema
  | data_flow
deriving DecidableEq

/-- One relationship candidate as assembled by `_analyze_endpoint_pair`:
its score, the `common_fields` payload (defaulting to the empty list
for the types that do not set it, via `rel_data.get("common_fields", [])`
in `analyze_all_relationships`), and the flow direction metadata. -/
structure Candidate where
  score : ℚ
  common_fields : Finset JVal
  flow_direction : Option FlowDirection
deriving DecidableEq

/-- Embeds `_analyze_endpoint_pair`: empty for a self pair (by id),
otherwise the candidates with strictly positive score, keyed by type in
the dict's insertion order. -/
def analyze_endpoint_pair (e1 e2 : Endpoint) :
    Option (List (RelationshipType × Candidate)) := do
  if e1.id = e2.id then some []
  else do
    let cf ← analyze_common_fields e1 e2
    let ss ← analyze_schema_similarity e1 e2
    let df ← analyze_data_flow e1 e2
    some ((if 0 < cf.score then
            [(RelationshipType.common_fields, ⟨cf.score, cf.common_fields, none⟩)] else [])
      ++ (if 0 < ss.score then
            [(RelationshipType.similar_schema, ⟨ss.score, ∅, none⟩)] else [])
      ++ (if 0 < df.score then
            [(RelationshipType.data_flow, ⟨df.score, ∅, df.flow_direction⟩)] else []))

/-! ## Full-corpus scan (`analyze_all_relationships`) -/

/-- The default `similarity_threshold` set in `__init__`. -/
def similarity_threshold : ℚ := 3/10

/-- A row of the `relationships` table as the analyzer creates it
(timestamps and the surrogate primary key are store-generated and not
modelled; metadata as for the candidates). -/
structure Relationship where
  source_endpoint_id : ℕ
  target_endpoint_id : ℕ
  relationship_type : RelationshipType
  common_fields : Finset JVal
  similarity_score : ℚ
deriving DecidableEq

/-- The running totals of `analyze_all_relationships`. -/
structure AnalysisResults where
  total_endpoints : ℕ
  relationships_created : ℕ
  common_fields_found : ℕ
  similar_schemas : ℕ
  data_flow_patterns : ℕ
deriving DecidableEq

/-- The pair loop `for i, e1 in enumerate(endpoints): for j, e2 in
enumerate(endpoints[i+1:], i+1)`: every ordered pair of list positions
`i < j`, in lexicographic order. -/
def pairsOf : List Endpoint → List (Endpoint × Endpoint)
  | [] => []
  | e :: rest => rest.map (fun e2 => (e, e2)) ++ pairsOf rest

/-- The body of the persistence branch: build the row from the current
pair and candidate, bump `relationships_created` and the counter of the
candidate's type. -/
def addRelationship (e1 e2 : Endpoint) (tc : RelationshipType × Candidate)
    (acc : List Relationship × AnalysisResults) : List Relationship × AnalysisResults :=
  let r : Relationship :=
    ⟨e1.id, e2.id, tc.1, tc.2.common_fields, tc.2.score⟩
  let res := acc.2
  let res := { res with relationships_created := res.relationships_created + 1 }
  let res :=
    match tc.1 with
    | .common_fields => { res with common_fields_found := res.common_fields_found + 1 }
    | .similar_schema => { res with similar_schemas := res.similar_schemas + 1 }
    | .data_flow => { res with data_flow_patterns := res.data_flow_patterns + 1 }
  (acc.1 ++ [r], res)

/-- The inner `for rel_type, rel_data in relationships.items()` loop:
persist every candidate whose score reaches the threshold `θ`. -/
def persistCandidates (θ : ℚ) (e1 e2 : Endpoint) (cands : List (RelationshipType × Candidate))
    (acc : List Relationship × AnalysisResults) : List Relationship × AnalysisResults :=
  cands.foldl (fun a tc => if θ ≤ tc.2.score then addRelationship e1 e2 tc a else a) acc

/-- The pairwise loop of `analyze_all_relationships` over an explicit
pair list, threading the accumulated rows and totals; `none` when the
scoring of some pair raises. -/
def processPairs (θ : ℚ) : List (Endpoint × Endpoint) →
    (List Relationship × AnalysisResults) → Option (List Relationship × AnalysisResults)
  | [], acc => some acc
  | (e1, e2) :: rest, acc => do
      let cands ← analyze_endpoint_pair e1 e2
      processPairs θ rest (persistCandidates θ e1 e2 cands acc)

/-- Embeds `analyze_all_relationships` with threshold `θ`
(`self.similarity_threshold`, 0.3 unless reconfigured): the rows added
to the store after the initial clear, and the returned summary. -/
def analyze_all_relationships (θ : ℚ) (endpoints : List Endpoint) :
    Option (List Relationship × AnalysisResults) :=
  processPairs θ (pairsOf endpoints) ([], ⟨endpoints.length, 0, 0, 0, 0⟩)

/-! ## Store-event trace of the scan, for the atomicity analysis

`analyze_all_relationships` talks to the store through a session:
it deletes all rows and **commits**, then stages inserts one by one,
then commits a second time at the end.  The trace of store events lets
us speak about what a reader of the store sees if the run dies at any
intermediate point: uncommitted staged inserts are invisible, so the
visible state is the result of replaying the trace up to the last
commit reached. -/

inductive StoreEvent where
  | clear
  | add (r : Relationship)
  | commit
deriving DecidableEq

/-- The store-event trace of one run of `analyze_all_relationships`:
`delete(); commit()`, one staged insert per persisted row, one final
`commit()`.  (When scoring raises partway, the actual trace is a prefix
of this one that stops before the final commit; crash points are
modelled below as arbitrary prefixes, which covers that case.) -/
def analysis_events (θ : ℚ) (endpoints : List Endpoint) : Option (List StoreEvent) := do
  let (rels, _) ← analyze_all_relationships θ endpoints
  some ([StoreEvent.clear, StoreEvent.commit] ++ rels.map StoreEvent.add ++ [StoreEvent.commit])

/-- Replay a trace over the store: `cur` is the session's working
state, `committed` what a concurrent reader (or a reader after a crash)
sees.  Pending work after the last commit is lost. -/
def replayEvents (cur committed : List Relationship) : List StoreEvent → List Relationship
  | [] => committed
  | StoreEvent.clear :: rest => replayEvents [] committed rest
  | StoreEvent.add r :: rest => replayEvents (cur ++ [r]) committed rest
  | StoreEvent.commit :: rest => replayEvents cur cur rest

/-- The relationship rows visible after the run crashed `k` events into
its trace, starting from the pre-scan store contents `pre`. -/
def visibleAfterCrash (pre : List Relationship) (events : List StoreEvent) (k : ℕ) :
    List Relationship :=
  replayEvents pre pre (events.take k)

/-! ## Cross-service field report (`analyze_common_fields_across_services`) -/

/-- The columns of the `services` table the report reads. -/
structure Service where
  id : ℕ
  name : String
deriving DecidableEq

/-- Python `str.endswith` on the character list. -/
def endsWithStr (suffix s : String) : Bool :=
  suffix.toList.isSuffixOf s.toList

/-- Embeds `_infer_field_type(field_name, endpoint)` — a fixed ordered
rule list over the lowercased field name, first match wins.  Raises
(`AttributeError` from `.lower()`) when the field is not a string,
which happens for non-string parameter names. -/
def infer_field_type : JVal → Option String
  | .str s =>
      let field_lower := String.mk (s.toList.map Char.toLower)
      if endsWithStr "id" field_lower ∨ field_lower = "id" then some "identifier"
      else if isSubstrOf "date" field_lower ∨ isSubstrOf "time" field_lower
          ∨ isSubstrOf "created" field_lower ∨ isSubstrOf "updated" field_lower
          ∨ isSubstrOf "timestamp" field_lower then some "datetime"
      else if isSubstrOf "name" field_lower ∨ isSubstrOf "title" field_lower
          ∨ isSubstrOf "label" field_lower then some "name"
      else if isSubstrOf "email" field_lower then some "email"
      else if isSubstrOf "status" field_lower ∨ isSubstrOf "state" field_lower
          ∨ isSubstrOf "active" field_lower ∨ isSubstrOf "enabled" field_lower then
        some "status"
      else if isSubstrOf "count" field_lower ∨ isSubstrOf "total" field_lower
          ∨ isSubstrOf "number" field_lower ∨ isSubstrOf "amount" field_lower then
        some "numeric"
      else some "unknown"
  | _ => none

/-- One accumulator entry of `field_analysis` (the defaultdict keyed by
field). -/
structure FieldInfo where
  field_name : JVal
  frequency : ℕ
  services : Finset String
  endpoints : Finset String
  field_types : Finset String
deriving DecidableEq

/-- A fresh defaultdict entry. -/
def emptyFieldInfo (f : JVal) : FieldInfo := ⟨f, 0, ∅, ∅, ∅⟩

/-- The per-field update in the loop body: bump the frequency, add the
service name, the `METHOD path` string and the inferred type (the type
is always a non-empty string, so the `if field_type:` guard always
passes). -/
def updateFieldInfo (fi : FieldInfo) (s : Service) (e : Endpoint) (t : String) : FieldInfo :=
  { fi with
      frequency := fi.frequency + 1
      services := insert s.name fi.services
      endpoints := insert (e.method ++ " " ++ e.path) fi.endpoints
      field_types := insert t fi.field_types }

/-- `field_analysis[field]` update on the association-list model of the
defaultdict: update the entry in place, or append a fresh one. -/
def bumpField (acc : List FieldInfo) (f : JVal) (s : Service) (e : Endpoint) (t : String) :
    List FieldInfo :=
  match acc with
  | [] => [updateFieldInfo (emptyFieldInfo f) s e t]
  | fi :: rest =>
      if fi.field_name = f then updateFieldInfo fi s e t :: rest
      else fi :: bumpField rest f s e t

/-- The `for field in fields` loop of one endpoint. -/
def foldEndpointFields (s : Service) (e : Endpoint) :
    List FieldInfo → List JVal → Option (List FieldInfo)
  | acc, [] => some acc
  | acc, f :: rest => do
      let t ← infer_field_type f
      foldEndpointFields s e (bumpField acc f s e t) rest

/-- One endpoint's contribution: iterate over its extracted field set
(each distinct field once). -/
def processEndpointFields (s : Service) (e : Endpoint) (acc : List FieldInfo) :
    Option (List FieldInfo) := do
  let lst ← extract_field_list_from_endpoint e
  foldEndpointFields s e acc lst.dedup

/-- The iteration order of the two outer loops: every service in store
order, and for each service its endpoints
(`filter(Endpoint.service_id == service.id)`). -/
def corpusPairs (services : List Service) (endpoints : List Endpoint) :
    List (Service × Endpoint) :=
  services.flatMap (fun s =>
    (endpoints.filter (fun e => e.service_id == s.id)).map (fun e => (s, e)))

def foldCorpus : List (Service × Endpoint) → List FieldInfo → Option (List FieldInfo)
  | [], acc => some acc
  | (s, e) :: rest, acc => do
      let acc' ← processEndpointFields s e acc
      foldCorpus rest acc'

/-- One row of the serialized report (`services`/`endpoints`/
`field_types` keep their set nature). -/
structure FieldEntry where
  field_name : JVal
  frequency : ℕ
  services : Finset String
  endpoints : Finset String
  field_types : Finset String
  cross_service : Bool
deriving DecidableEq

def toFieldEntry (fi : FieldInfo) : FieldEntry :=
  ⟨fi.field_name, fi.frequency, fi.services, fi.endpoints, fi.field_types,
    decide (1 < fi.services.card)⟩

/-- `result.sort(key=frequency, reverse=True)`: a stable sort putting
larger frequencies first.  (Python's set-iteration order already makes
the pre-sort order unspecified; any stable sort realizes one of the
possible outputs, and all stated properties are order-insensitive
beyond sortedness.) -/
def sortByFrequency (l : List FieldEntry) : List FieldEntry :=
  List.insertionSort (fun a b => b.frequency ≤ a.frequency) l

structure FieldReport where
  total_unique_fields : ℕ
  cross_service_fields : ℕ
  most_common_fields : List FieldEntry
  field_analysis : List FieldEntry
deriving DecidableEq

/-- Embeds `analyze_common_fields_across_services`. -/
def analyze_common_fields_across_services (services : List Service)
    (endpoints : List Endpoint) : Option FieldReport := do
  let infos ← foldCorpus (corpusPairs services endpoints) []
  let result := sortByFrequency (infos.map toFieldEntry)
  some
    { total_unique_fields := result.length
      cross_service_fields := (result.filter (fun f => f.cross_service)).length
      most_common_fields := result.take 20
      field_analysis := result }

/-! ## Statement vocabulary

Definitions used to state the verified properties: the directional
compatibility quantity as the specification phrases it, and concrete
endpoints realizing the specification's scenarios. -/

/-- The specification's directional data-flow compatibility: the
schema-compatibility ratio when both schemas are present (truthy), and
0 when either is absent. -/
def dfCompat (output input : JVal) : Option ℚ :=
  if truthy output && truthy input then calculate_schema_compatibility output input
  else some 0

/-- Scenario 1's request schema: `properties = {id, name}`. -/
def idNameSchema : JVal :=
  .obj [("properties", .obj [("id", .obj [("type", .str "integer")]),
                             ("name", .obj [("type", .str "string")])])]

/-- Scenario 1, first endpoint: request schema `{id, name}`, nothing
else. -/
def scnEndpointA : Endpoint :=
  { id := 1, service_id := 1, path := "/a", method := "POST"
    request_schema := idNameSchema, response_schema := .null, parameters := .null }

/-- Scenario 1, second endpoint. -/
def scnEndpointB : Endpoint :=
  { id := 2, service_id := 1, path := "/b", method := "POST"
    request_schema := idNameSchema, response_schema := .null, parameters := .null }

/-- Scenario 3, `GET /users/placeholder-id`. -/
def scnUsersGet : Endpoint :=
  { id := 3, service_id := 1, path := "/users/{id}", method := "GET"
    request_schema := .null, response_schema := .null, parameters := .null }

/-- Scenario 3, `DELETE /users/placeholder-id`. -/
def scnUsersDelete : Endpoint :=
  { id := 4, service_id := 1, path := "/users/{id}", method := "DELETE"
    request_schema := .null, response_schema := .null, parameters := .null }

/-- The field set of Scenario 1's endpoints. -/
def idNameFields : Finset JVal := {JVal.str "id", JVal.str "name"}

/-- The combined schema `_get_combined_schema` builds for Scenario 1's
endpoints (request properties only, response contributes nothing). -/
def scnCombined : JVal :=
  .obj [("type", .str "object"),
    ("properties", .obj [("id", .obj [("type", .str "integer")]),
                         ("name", .obj [("type", .str "string")])])]

/-- A relationship row present in the store before a scan (used to
exhibit the mid-scan crash states). -/
def scnPreRel : Relationship := ⟨7, 8, RelationshipType.data_flow, ∅, 1⟩

/-- Scenario 2's producer: a response schema offering `id`, `name`,
`email`. -/
def scnFlowSource : Endpoint :=
  { id := 5, service_id := 1, path := "/a", method := "GET"
    request_schema := .null
    response_schema := .obj [("properties", .obj
      [("id", .obj []), ("name", .obj []), ("email", .obj [])])]
    parameters := .null }

/-- Scenario 2's consumer: a request schema needing `id`, `name`. -/
def scnFlowSink : Endpoint :=
  { id := 6, service_id := 1, path := "/b", method := "POST"
    request_schema := .obj [("properties", .obj [("id", .obj []), ("name", .obj [])])]
    response_schema := .null, parameters := .null }

/-! ## Basic lemmas -/

theorem ite_lt_eq_max (a b : ℚ) : (if a < b then b else a) = max a b := by
  rcases lt_trichotomy a b with h | h | h
  · simp [h, le_of_lt h, max_eq_right]
  · simp [h]
  · simp [not_lt.mpr (le_of_lt h), max_eq_left (le_of_lt h), if_neg (lt_asymm h)]

theorem compat_nonneg {o i : JVal} {c : ℚ}
    (h : calculate_schema_compatibility o i = some c) : 0 ≤ c := by
  rcases ho : extract_fields_from_schema o "" with _ | lo <;>
    rcases hi : extract_fields_from_schema i "" with _ | li <;>
    simp [calculate_schema_compatibility, ho, hi, Option.bind_eq_bind] at h
  by_cases hemp : li = []
  · simp [hemp] at h
    exact le_of_eq h
  · simp [hemp] at h
    rw [← h]
    positivity

/-- `_analyze_crud_relationship` in one guard: 0.8 exactly when the
cleaned paths are similar enough and the methods are two different
CRUD verbs. -/
theorem crud_eq_ite (e1 e2 : Endpoint) :
    analyze_crud_relationship e1 e2 =
      if 7/10 ≤ calculate_path_similarity (clean_path e1.path) (clean_path e2.path)
          ∧ e1.method ∈ crudMethods ∧ e2.method ∈ crudMethods ∧ e1.method ≠ e2.method
        then 8/10 else 0 := by
  unfold analyze_crud_relationship
  by_cases h1 : calculate_path_similarity (clean_path e1.path) (clean_path e2.path) < 7/10
  · rw [if_pos h1, if_neg]
    rintro ⟨ha, -⟩
    exact absurd h1 (not_lt.mpr ha)
  · rw [if_neg h1]
    by_cases h2 : e1.method ∈ crudMethods ∧ e2.method ∈ crudMethods
    · rw [if_pos h2]
      by_cases h3 : e1.method = e2.method
      · rw [if_neg (by simp [h3]), if_neg]
        rintro ⟨-, -, -, hne⟩
        exact hne h3
      · rw [if_pos h3, if_pos ⟨not_lt.mp h1, h2.1, h2.2, h3⟩]
    · rw [if_neg h2, if_neg]
      rintro ⟨-, ha, hb, -⟩
      exact h2 ⟨ha, hb⟩

theorem crud_nonneg (e1 e2 : Endpoint) : 0 ≤ analyze_crud_relationship e1 e2 := by
  rw [crud_eq_ite]
  split <;> norm_num

theorem ite_lt_fst (b : ℚ) (d : Option FlowDirection) (st : ℚ × Option FlowDirection) :
    (if st.1 < b then (b, d) else st).1 = max st.1 b := by
  rcases lt_trichotomy st.1 b with h | h | h
  · simp [h, le_of_lt h]
  · simp [h]
  · simp [if_neg (lt_asymm h), max_eq_left (le_of_lt h)]

theorem ite_lt_fst0 (b : ℚ) (d : Option FlowDirection) :
    (if 0 < b then (b, d) else ((0 : ℚ), (none : Option FlowDirection))).1 = max 0 b := by
  rcases lt_trichotomy 0 b with h | h | h
  · simp [h, le_of_lt h]
  · simp [← h]
  · simp [if_neg (lt_asymm h), max_eq_left (le_of_lt h)]

/-- The data-flow score is the maximum of the two directional
compatibilities (0 for an absent direction) and the CRUD score. -/
theorem analyze_data_flow_score_eq (e1 e2 : Endpoint) (r : DataFlowResult)
    (h : analyze_data_flow e1 e2 = some r) :
    ∃ c12 c21 : ℚ,
      dfCompat e1.response_schema e2.request_schema = some c12 ∧
      dfCompat e2.response_schema e1.request_schema = some c21 ∧
      0 ≤ c12 ∧ 0 ≤ c21 ∧
      r.score = max (max c12 c21) (analyze_crud_relationship e1 e2) := by
  unfold analyze_data_flow at h
  by_cases t12 : truthy e1.response_schema && truthy e2.request_schema
  · rcases h12 : calculate_schema_compatibility e1.response_schema e2.request_schema
      with _ | c12
    · simp [t12, h12] at h
    · by_cases t21 : truthy e2.response_schema && truthy e1.request_schema
      · rcases h21 : calculate_schema_compatibility e2.response_schema e1.request_schema
          with _ | c21
        · simp [t12, t21, h12, h21] at h
        · refine ⟨c12, c21, by simp [dfCompat, t12, h12], by simp [dfCompat, t21, h21],
            compat_nonneg h12, compat_nonneg h21, ?_⟩
          simp only [t12, t21, h12, h21, if_true, Option.bind_eq_bind, Option.some_bind,
            Option.some.injEq] at h
          rw [← h]
          dsimp only
          rw [ite_lt_fst, ite_lt_fst, ite_lt_fst0,
            max_eq_right (compat_nonneg h12)]
      · refine ⟨c12, 0, by simp [dfCompat, t12, h12], by simp [dfCompat, t21],
          compat_nonneg h12, le_refl 0, ?_⟩
        simp only [t12, t21, h12, if_true, Bool.false_eq_true, if_false,
          Option.bind_eq_bind, Option.some_bind, Option.some.injEq] at h
        rw [← h]
        dsimp only
        rw [ite_lt_fst, ite_lt_fst0, max_eq_right (compat_nonneg h12),
          max_eq_left (compat_nonneg h12)]
  · by_cases t21 : truthy e2.response_schema && truthy e1.request_schema
    · rcases h21 : calculate_schema_compatibility e2.response_schema e1.request_schema
        with _ | c21
      · simp [t12, t21, h21] at h
      · refine ⟨0, c21, by simp [dfCompat, t12], by simp [dfCompat, t21, h21],
          le_refl 0, compat_nonneg h21, ?_⟩
        simp only [t12, t21, h21, if_true, Bool.false_eq_true, if_false,
          Option.bind_eq_bind, Option.some_bind, Option.some.injEq] at h
        rw [← h]
        dsimp only
        rw [ite_lt_fst, ite_lt_fst0]
    · refine ⟨0, 0, by simp [dfCompat, t12], by simp [dfCompat, t21],
        le_refl 0, le_refl 0, ?_⟩
      simp only [t12, t21, Bool.false_eq_true, if_false, Option.bind_eq_bind,
        Option.some_bind, Option.some.injEq] at h
      rw [← h]
      dsimp only
      rw [ite_lt_fst0]
      simp

/-! ## Claim theorems -/

/-- C4: `_extract_fields_from_schema` returns the empty set on every
non-dict input, but it is **not** exception-free on dict inputs: a dict
whose `properties` value is malformed (not a dict, here the number `5`)
makes `schema["properties"].items()` raise `AttributeError` instead of
degrading to the well-formed fields, contradicting the claimed totality.
The first conjunct records the part of the claim the code satisfies;
the second exhibits the raising input. -/
theorem c4_extract_fields_raises_on_malformed_properties :
    (∀ pre, extract_fields_from_schema (.str "not-an-object") pre = some []
      ∧ extract_fields_from_schema (.arr [.str "x"]) pre = some []
      ∧ extract_fields_from_schema .null pre = some []
      ∧ extract_fields_from_schema (.num 3) pre = some []
      ∧ extract_fields_from_schema (.bool true) pre = some [])
    ∧ extract_fields_from_schema (.obj [("properties", .num 5)]) "" = none := by
  constructor
  · intro pre
    refine ⟨rfl, rfl, rfl, rfl, rfl⟩
  · decide

/-- C1: for two endpoints whose field-set extraction succeeds, the
CommonFields candidate scores the Jaccard index of the two field sets
and carries exactly the intersection; it appears in the pair's
candidates exactly when the intersection is non-empty (on a non-self
pair whose scoring succeeds), and an empty intersection gives score 0
and no candidate.  In particular two endpoints whose request schemas
both have properties `id` and `name` and nothing else score 1 with
common fields `{id, name}`. -/
theorem c1_common_fields_jaccard :
    (∀ (e1 e2 : Endpoint) (f1 f2 : Finset JVal),
      extract_fields_from_endpoint e1 = some f1 →
      extract_fields_from_endpoint e2 = some f2 →
      (f1 ∩ f2 ≠ ∅ →
        analyze_common_fields e1 e2 =
          some ⟨((f1 ∩ f2).card : ℚ) / ((f1 ∪ f2).card : ℚ), f1 ∩ f2⟩ ∧
        (e1.id ≠ e2.id → ∀ cands, analyze_endpoint_pair e1 e2 = some cands →
          (RelationshipType.common_fields,
            (⟨((f1 ∩ f2).card : ℚ) / ((f1 ∪ f2).card : ℚ), f1 ∩ f2,
              none⟩ : Candidate)) ∈ cands)) ∧
      (f1 ∩ f2 = ∅ →
        analyze_common_fields e1 e2 = some ⟨0, ∅⟩ ∧
        ∀ cands, analyze_endpoint_pair e1 e2 = some cands →
          ∀ c, (RelationshipType.common_fields, c) ∉ cands))
    ∧ analyze_common_fields scnEndpointA scnEndpointB = some ⟨1, idNameFields⟩ := by
  have gen : ∀ (e1 e2 : Endpoint) (f1 f2 : Finset JVal),
      extract_fields_from_endpoint e1 = some f1 →
      extract_fields_from_endpoint e2 = some f2 →
      (f1 ∩ f2 ≠ ∅ →
        analyze_common_fields e1 e2 =
          some ⟨((f1 ∩ f2).card : ℚ) / ((f1 ∪ f2).card : ℚ), f1 ∩ f2⟩ ∧
        (e1.id ≠ e2.id → ∀ cands, analyze_endpoint_pair e1 e2 = some cands →
          (RelationshipType.common_fields,
            (⟨((f1 ∩ f2).card : ℚ) / ((f1 ∪ f2).card : ℚ), f1 ∩ f2,
              none⟩ : Candidate)) ∈ cands)) ∧
      (f1 ∩ f2 = ∅ →
        analyze_common_fields e1 e2 = some ⟨0, ∅⟩ ∧
        ∀ cands, analyze_endpoint_pair e1 e2 = some cands →
          ∀ c, (RelationshipType.common_fields, c) ∉ cands) := by
    intro e1 e2 f1 f2 h1 h2
    constructor
    · intro hne
      have hupos : 0 < (f1 ∪ f2).card := by
        rcases Finset.nonempty_iff_ne_empty.mpr hne with ⟨x, hx⟩
        exact Finset.card_pos.mpr ⟨x, Finset.mem_union_left f2 (Finset.mem_inter.mp hx).1⟩
      have hcf : analyze_common_fields e1 e2 =
          some ⟨((f1 ∩ f2).card : ℚ) / ((f1 ∪ f2).card : ℚ), f1 ∩ f2⟩ := by
        simp [analyze_common_fields, h1, h2, hne, hupos]
        intro h
        rw [h] at hupos
        simp at hupos
      refine ⟨hcf, ?_⟩
      intro hid cands hcands
      have hscore : (0 : ℚ) < ((f1 ∩ f2).card : ℚ) / ((f1 ∪ f2).card : ℚ) := by
        apply div_pos
        · exact_mod_cast Finset.card_pos.mpr (Finset.nonempty_iff_ne_empty.mpr hne)
        · exact_mod_cast hupos
      rw [analyze_endpoint_pair, if_neg hid] at hcands
      simp only [Option.bind_eq_bind, Option.bind_eq_some, Option.some.injEq] at hcands
      obtain ⟨cf, hcf', ss, hss, df, hdf, hmain⟩ := hcands
      rw [hcf] at hcf'
      injection hcf' with hcf2
      subst hcf2
      rw [← hmain]
      refine List.mem_append.mpr (Or.inl (List.mem_append.mpr (Or.inl ?_)))
      have : (0 : ℚ) <
          (⟨((f1 ∩ f2).card : ℚ) / ((f1 ∪ f2).card : ℚ), f1 ∩ f2⟩ :
            CommonFieldsResult).score := hscore
      rw [if_pos this]
      exact List.mem_singleton.mpr rfl
    · intro hemp
      have hcf : analyze_common_fields e1 e2 = some ⟨0, ∅⟩ := by
        simp [analyze_common_fields, h1, h2, hemp]
      refine ⟨hcf, ?_⟩
      intro cands hcands c
      by_cases hid : e1.id = e2.id
      · rw [analyze_endpoint_pair, if_pos hid] at hcands
        simp only [Option.some.injEq] at hcands
        rw [← hcands]
        exact List.not_mem_nil _
      · rw [analyze_endpoint_pair, if_neg hid] at hcands
        simp only [Option.bind_eq_bind, Option.bind_eq_some, Option.some.injEq] at hcands
        obtain ⟨cf, hcf', ss, hss, df, hdf, hmain⟩ := hcands
        rw [hcf] at hcf'
        injection hcf' with hcf2
        subst hcf2
        rw [← hmain]
        intro hmem
        rcases List.mem_append.mp hmem with hmem | hmem
        · rcases List.mem_append.mp hmem with hmem | hmem
          · simp at hmem
          · by_cases hs : 0 < ss.score <;> simp [hs] at hmem
        · by_cases hd : 0 < df.score <;> simp [hd] at hmem
  refine ⟨gen, ?_⟩
  have hA : extract_fields_from_endpoint scnEndpointA = some idNameFields := by decide
  have hB : extract_fields_from_endpoint scnEndpointB = some idNameFields := by decide
  have hne : idNameFields ∩ idNameFields ≠ ∅ := by decide
  have heq := ((gen scnEndpointA scnEndpointB idNameFields idNameFields hA hB).1 hne).1
  rw [heq]
  norm_num [show idNameFields ∩ idNameFields = idNameFields from by decide,
    show idNameFields ∪ idNameFields = idNameFields from by decide,
    show idNameFields.card = 2 from by decide]

/-- Witness for C1 at Scenario 1's endpoints. -/
theorem c1_common_fields_jaccard_witness :
    analyze_common_fields scnEndpointA scnEndpointB =
      some ⟨((idNameFields ∩ idNameFields).card : ℚ) / ((idNameFields ∪ idNameFields).card : ℚ),
        idNameFields ∩ idNameFields⟩ :=
  ((c1_common_fields_jaccard.1 scnEndpointA scnEndpointB idNameFields idNameFields
      (by decide) (by decide)).1 (by decide)).1

/-- C2: the DataFlow score of a pair is the maximum of the two
directional schema compatibilities (0 for a direction whose schemas
are absent) and the CRUD score, where the CRUD score is 0.8 exactly
when the cleaned paths have similarity at least 0.7 and the methods
are two different CRUD verbs; the pair's candidate list carries a
DataFlow entry exactly when that maximum is strictly positive. -/
theorem c2_data_flow_score_is_max :
    ∀ (e1 e2 : Endpoint) (r : DataFlowResult),
      analyze_data_flow e1 e2 = some r →
      (∃ c12 c21 : ℚ,
        dfCompat e1.response_schema e2.request_schema = some c12 ∧
        dfCompat e2.response_schema e1.request_schema = some c21 ∧
        r.score = max (max c12 c21) (analyze_crud_relationship e1 e2)) ∧
      analyze_crud_relationship e1 e2 =
        (if 7/10 ≤ calculate_path_similarity (clean_path e1.path) (clean_path e2.path)
            ∧ e1.method ∈ crudMethods ∧ e2.method ∈ crudMethods ∧ e1.method ≠ e2.method
          then 8/10 else 0) ∧
      (e1.id ≠ e2.id → ∀ cands, analyze_endpoint_pair e1 e2 = some cands →
        ((∃ c, (RelationshipType.data_flow, c) ∈ cands) ↔ 0 < r.score)) := by
  intro e1 e2 r h
  obtain ⟨c12, c21, h12, h21, -, -, hmax⟩ := analyze_data_flow_score_eq e1 e2 r h
  refine ⟨⟨c12, c21, h12, h21, hmax⟩, crud_eq_ite e1 e2, ?_⟩
  intro hid cands hcands
  rw [analyze_endpoint_pair, if_neg hid] at hcands
  simp only [Option.bind_eq_bind, Option.bind_eq_some, Option.some.injEq] at hcands
  obtain ⟨cf, hcf, ss, hss, df, hdf, hmain⟩ := hcands
  rw [h] at hdf
  injection hdf with hdf2
  subst hdf2
  rw [← hmain]
  constructor
  · rintro ⟨c, hmem⟩
    rcases List.mem_append.mp hmem with hmem | hmem
    · rcases List.mem_append.mp hmem with hmem | hmem
      · by_cases hc : 0 < cf.score <;> simp [hc] at hmem
      · by_cases hs : 0 < ss.score <;> simp [hs] at hmem
    · by_cases hd : 0 < r.score
      · exact hd
      · simp [hd] at hmem
  · intro hd
    refine ⟨⟨r.score, ∅, r.flow_direction⟩,
      List.mem_append.mpr (Or.inr ?_)⟩
    rw [if_pos hd]
    exact List.mem_singleton.mpr rfl


/-- Witness for C2 at Scenario 2's endpoints: the 1→2 compatibility is
2/2 and wins. -/
theorem c2_data_flow_score_is_max_witness :
    ∃ c12 c21 : ℚ,
      dfCompat scnFlowSource.response_schema scnFlowSink.request_schema = some c12 ∧
      dfCompat scnFlowSink.response_schema scnFlowSource.request_schema = some c21 ∧
      (DataFlowResult.mk (2/2) (some FlowDirection.one_to_two)).score =
        max (max c12 c21) (analyze_crud_relationship scnFlowSource scnFlowSink) := by
  have hsim0 : calculate_path_similarity (clean_path scnFlowSource.path)
      (clean_path scnFlowSink.path) = 0 := by
    have h1 : pathSegments (clean_path scnFlowSource.path) = ["a"] := by decide
    have h2 : pathSegments (clean_path scnFlowSink.path) = ["b"] := by decide
    have hc : commonSegmentCount ["a"] ["b"] = 0 := by decide
    simp [calculate_path_similarity, h1, h2, hc]
  have hcrud : analyze_crud_relationship scnFlowSource scnFlowSink = 0 := by
    rw [crud_eq_ite, if_neg]
    rintro ⟨hsim, -⟩
    rw [hsim0] at hsim
    norm_num at hsim
  have hcomp : calculate_schema_compatibility scnFlowSource.response_schema
      scnFlowSink.request_schema = some (2/2 : ℚ) := by
    have ho : extract_fields_from_schema scnFlowSource.response_schema "" =
        some ["id", "name", "email"] := by decide
    have hi : extract_fields_from_schema scnFlowSink.request_schema "" =
        some ["id", "name"] := by decide
    simp only [calculate_schema_compatibility, ho, hi, Option.bind_eq_bind, Option.some_bind]
    rw [if_neg (by decide)]
    norm_num [show ((["id", "name", "email"].toFinset ∩ ["id", "name"].toFinset :
        Finset String)).card = 2 from by decide,
      show (["id", "name"].toFinset : Finset String).card = 2 from by decide]
  have t12 : (truthy scnFlowSource.response_schema && truthy scnFlowSink.request_schema)
      = true := by decide
  have t21 : (truthy scnFlowSink.response_schema && truthy scnFlowSource.request_schema)
      = false := by decide
  have hdf : analyze_data_flow scnFlowSource scnFlowSink =
      some ⟨2/2, some FlowDirection.one_to_two⟩ := by
    have hpos : (0 : ℚ) < 2/2 := by norm_num
    have hncr : ¬((2 : ℚ)/2 < analyze_crud_relationship scnFlowSource scnFlowSink) := by
      rw [hcrud]; norm_num
    simp [analyze_data_flow, t12, t21, hcomp, hpos, hncr]
    rw [hcrud]
    norm_num
  exact (c2_data_flow_score_is_max scnFlowSource scnFlowSink
    ⟨2/2, some FlowDirection.one_to_two⟩ hdf).1

/-! ## Lemmas on the combined schema (for the SimilarSchema analysis) -/

theorem dget_append (l1 l2 : List (String × JVal)) (k : String) :
    dget (l1 ++ l2) k = (dget l1 k).or (dget l2 k) := by
  induction l1 with
  | nil => simp [dget]
  | cons hd tl ih =>
      rcases hd with ⟨k', v'⟩
      by_cases hk : k' = k <;> simp [dget, hk, ih]

theorem dget_map_update (base upd : List (String × JVal)) (k : String) :
    dget (base.map (fun kv =>
      match dget upd kv.1 with
      | some v => (kv.1, v)
      | none => kv)) k =
    (dget base k).map (fun v =>
      match dget upd k with
      | some w => w
      | none => v) := by
  induction base with
  | nil => simp [dget]
  | cons hd tl ih =>
      rcases hd with ⟨k', v'⟩
      by_cases hk : k' = k
      · subst hk
        rcases h : dget upd k' with _ | w <;> simp [dget, h]
      · rcases h : dget upd k' with _ | w <;> simp [dget, hk, h, ih]

theorem dget_filter_fresh (base upd : List (String × JVal)) (k : String) :
    dget (upd.filter (fun kv => (dget base kv.1).isNone)) k =
      if (dget base k).isNone then dget upd k else none := by
  induction upd with
  | nil => simp [dget]
  | cons hd tl ih =>
      rcases hd with ⟨k', v'⟩
      by_cases hk : k' = k
      · subst hk
        rcases h : dget base k' with _ | w <;>
          simp [dget, h, List.filter, ih]
      · rcases h : dget base k' with _ | w <;>
          simp [dget, hk, h, List.filter, ih]

/-- `dict.update` semantics on the merged properties: the updating
(response) side wins on a shared key, the base (request) side fills the
rest. -/
theorem dget_updateProps (base upd : List (String × JVal)) (k : String) :
    dget (updateProps base upd) k = (dget upd k).or (dget base k) := by
  rw [updateProps, dget_append, dget_map_update, dget_filter_fresh]
  rcases hb : dget base k with _ | v <;> rcases hu : dget upd k with _ | w <;>
    simp [Option.or]

theorem get_combined_schema_eq (e : Endpoint) (rq rp : List (String × JVal))
    (hq : combinedSchemaProps e.request_schema = some rq)
    (hp : combinedSchemaProps e.response_schema = some rp) :
    get_combined_schema e =
      some (if updateProps rq rp = [] then none
        else some (.obj [("type", .str "object"),
          ("properties", .obj (updateProps rq rp))])) := by
  by_cases hm : updateProps rq rp = [] <;>
    simp [get_combined_schema, hq, hp, hm]

theorem get_combined_some {e : Endpoint} {s : JVal}
    (h : get_combined_schema e = some (some s)) :
    ∃ merged, merged ≠ [] ∧
      s = .obj [("type", .str "object"), ("properties", .obj merged)] := by
  unfold get_combined_schema at h
  rcases hq : combinedSchemaProps e.request_schema with _ | rq <;>
    rcases hp : combinedSchemaProps e.response_schema with _ | rp <;>
      simp only [hq, hp, Option.bind_eq_bind, Option.some_bind, Option.none_bind] at h
  · exact absurd h (by simp)
  · exact absurd h (by simp)
  · exact absurd h (by simp)
  · by_cases hm : updateProps rq rp = []
    · rw [if_pos hm] at h
      exact absurd h (by simp)
    · rw [if_neg hm] at h
      simp only [Option.some.injEq] at h
      exact ⟨updateProps rq rp, hm, h.symm⟩

theorem extractProps_ne_nil {k : String} {v : JVal} {rest : List (String × JVal)}
    {pre : String} {l : List String}
    (h : extractProps ((k, v) :: rest) pre = some l) : l ≠ [] := by
  simp only [extractProps, Option.bind_eq_bind, Option.bind_eq_some,
    Option.some.injEq] at h
  obtain ⟨n, hn, rf, hrf, hl⟩ := h
  rw [← hl]
  simp

/-- Field extraction on a combined schema reduces to the `properties`
loop over the merged property map. -/
theorem extract_combined (merged : List (String × JVal)) :
    extract_fields_from_schema
        (.obj [("type", .str "object"), ("properties", .obj merged)]) "" =
      (extractProps merged "").map (fun lp => lp ++ []) := by
  rcases hm : extractProps merged "" with _ | lp <;>
    simp [extract_fields_from_schema, extractFromBindings, extractPropsVal, hm]

/-- C3: the SimilarSchema analysis works on a per-endpoint combined
schema whose property map merges the request and response `properties`
with the response side overriding on name collision (first conjunct:
the lookup semantics of the merge; second: the combined schema built by
`_get_combined_schema`); when either combined schema is `None` (zero
merged properties) the score is 0 and the candidate is omitted, and
otherwise the score is the Jaccard index of the two combined schemas'
extracted field sets — parameters play no part. -/
theorem c3_similar_schema_merged_jaccard :
    (∀ (base upd : List (String × JVal)) (k : String),
      dget (updateProps base upd) k = (dget upd k).or (dget base k)) ∧
    (∀ (e : Endpoint) (rq rp : List (String × JVal)),
      combinedSchemaProps e.request_schema = some rq →
      combinedSchemaProps e.response_schema = some rp →
      get_combined_schema e =
        some (if updateProps rq rp = [] then none
          else some (.obj [("type", .str "object"),
            ("properties", .obj (updateProps rq rp))]))) ∧
    (∀ (e1 e2 : Endpoint) (c1 c2 : Option JVal),
      get_combined_schema e1 = some c1 →
      get_combined_schema e2 = some c2 →
      ((c1 = none ∨ c2 = none) →
        analyze_schema_similarity e1 e2 = some ⟨0⟩ ∧
        (∀ cands, analyze_endpoint_pair e1 e2 = some cands →
          ∀ c, (RelationshipType.similar_schema, c) ∉ cands)) ∧
      (∀ s1 s2, c1 = some s1 → c2 = some s2 →
        ∀ r, analyze_schema_similarity e1 e2 = some r →
          ∃ l1 l2 : List String,
            extract_fields_from_schema s1 "" = some l1 ∧
            extract_fields_from_schema s2 "" = some l2 ∧
            l1.toFinset ≠ ∅ ∧ l2.toFinset ≠ ∅ ∧
            r.score = ((l1.toFinset ∩ l2.toFinset).card : ℚ) /
              ((l1.toFinset ∪ l2.toFinset).card : ℚ))) := by
  refine ⟨dget_updateProps, get_combined_schema_eq, ?_⟩
  intro e1 e2 c1 c2 hc1 hc2
  constructor
  · intro hor
    have hss : analyze_schema_similarity e1 e2 = some ⟨0⟩ := by
      rcases hor with hor | hor <;> subst hor
      · rcases c2 with _ | s2 <;>
          simp [analyze_schema_similarity, hc1, hc2]
      · rcases c1 with _ | s1 <;>
          simp [analyze_schema_similarity, hc1, hc2]
    refine ⟨hss, ?_⟩
    intro cands hcands c
    by_cases hid : e1.id = e2.id
    · rw [analyze_endpoint_pair, if_pos hid] at hcands
      simp only [Option.some.injEq] at hcands
      rw [← hcands]
      exact List.not_mem_nil _
    · rw [analyze_endpoint_pair, if_neg hid] at hcands
      simp only [Option.bind_eq_bind, Option.bind_eq_some, Option.some.injEq] at hcands
      obtain ⟨cf, hcf, ss, hss', df, hdf, hmain⟩ := hcands
      rw [hss] at hss'
      injection hss' with hss2
      subst hss2
      rw [← hmain]
      intro hmem
      rcases List.mem_append.mp hmem with hmem | hmem
      · rcases List.mem_append.mp hmem with hmem | hmem
        · by_cases hc : 0 < cf.score <;> simp [hc] at hmem
        · simp at hmem
      · by_cases hd : 0 < df.score <;> simp [hd] at hmem
  · intro s1 s2 hs1 hs2 r hr
    subst hs1
    subst hs2
    obtain ⟨m1, hm1ne, hsh1⟩ := get_combined_some hc1
    obtain ⟨m2, hm2ne, hsh2⟩ := get_combined_some hc2
    simp only [analyze_schema_similarity, hc1, hc2, Option.bind_eq_bind,
      Option.some_bind, Option.bind_eq_some, Option.some.injEq] at hr
    obtain ⟨sc, hsc, hscr⟩ := hr
    simp only [calculate_schema_similarity, Option.bind_eq_bind,
      Option.bind_eq_some, Option.some.injEq] at hsc
    obtain ⟨l1, hl1, l2, hl2, hsc2⟩ := hsc
    have hne1 : l1 ≠ [] := by
      have h1 := hl1
      rw [hsh1, extract_combined m1] at h1
      rcases hmap : extractProps m1 "" with _ | lp1
      · rw [hmap] at h1
        simp at h1
      · rw [hmap] at h1
        simp only [Option.map_some', Option.some.injEq, List.append_nil] at h1
        rcases m1 with _ | ⟨⟨k1, v1⟩, rest1⟩
        · exact absurd rfl hm1ne
        · have hnp := extractProps_ne_nil hmap
          subst h1
          exact hnp
    have hne2 : l2 ≠ [] := by
      have h2 := hl2
      rw [hsh2, extract_combined m2] at h2
      rcases hmap : extractProps m2 "" with _ | lp2
      · rw [hmap] at h2
        simp at h2
      · rw [hmap] at h2
        simp only [Option.map_some', Option.some.injEq, List.append_nil] at h2
        rcases m2 with _ | ⟨⟨k2, v2⟩, rest2⟩
        · exact absurd rfl hm2ne
        · have hnp := extractProps_ne_nil hmap
          subst h2
          exact hnp
    refine ⟨l1, l2, hl1, hl2, by simpa using hne1, by simpa using hne2, ?_⟩
    have hu : ¬(l1.toFinset ∪ l2.toFinset = (∅ : Finset String)) := by
      rw [Finset.union_eq_empty]
      rintro ⟨h1, -⟩
      exact hne1 (by simpa using h1)
    rw [if_neg (by simp [hne1, hne2]), if_neg (by simp [hne1, hne2]),
      if_neg hu] at hsc2
    simp only [Option.some.injEq] at hsc2
    rw [← hscr, ← hsc2]

/-- Witness for C3 at Scenario 1's endpoints: both combined schemas are
the `{id, name}` property map and the similarity score is 1 = 2/2. -/
theorem c3_similar_schema_merged_jaccard_witness :
    ∃ l1 l2 : List String,
      extract_fields_from_schema scnCombined "" = some l1 ∧
      extract_fields_from_schema scnCombined "" = some l2 ∧
      l1.toFinset ≠ ∅ ∧ l2.toFinset ≠ ∅ ∧
      (SchemaSimilarityResult.mk 1).score =
        ((l1.toFinset ∩ l2.toFinset).card : ℚ) /
          ((l1.toFinset ∪ l2.toFinset).card : ℚ) := by
  have hA : get_combined_schema scnEndpointA = some (some scnCombined) := by decide
  have hB : get_combined_schema scnEndpointB = some (some scnCombined) := by decide
  have hl : extract_fields_from_schema scnCombined "" = some ["id", "name"] := by decide
  have hcalc : calculate_schema_similarity scnCombined scnCombined = some 1 := by
    simp only [calculate_schema_similarity, hl, Option.bind_eq_bind, Option.some_bind]
    rw [if_neg (by decide), if_neg (by decide), if_neg (by decide)]
    norm_num [show ((["id", "name"].toFinset ∩ ["id", "name"].toFinset :
        Finset String)).card = 2 from by decide,
      show ((["id", "name"].toFinset ∪ ["id", "name"].toFinset :
        Finset String)).card = 2 from by decide]
  have hss : analyze_schema_similarity scnEndpointA scnEndpointB = some ⟨1⟩ := by
    simp [analyze_schema_similarity, hA, hB, hcalc]
  exact ((c3_similar_schema_merged_jaccard.2.2 scnEndpointA scnEndpointB
    (some scnCombined) (some scnCombined) hA hB).2 scnCombined scnCombined
    rfl rfl ⟨1⟩ hss)

/-! ## Lemmas on path similarity -/

/-- The zip-based matched-segment count equals the index-based count up
to the shorter length. -/
theorem countP_zip_eq (p : String → String → Bool) :
    ∀ l1 l2 : List String,
      (l1.zip l2).countP (fun q => p q.1 q.2) =
      (List.range (min l1.length l2.length)).countP
        (fun i => p (l1.getD i "") (l2.getD i ""))
  | [], l2 => by simp
  | a :: t1, [] => by simp
  | a :: t1, b :: t2 => by
      have ih := countP_zip_eq p t1 t2
      simp only [List.zip_cons_cons, List.countP_cons, List.length_cons,
        Nat.succ_min_succ, List.range_succ_eq_map, List.countP_map]
      rw [ih]
      simp [Function.comp_def]

/-- C5: path similarity is 1 when both segment lists are empty, 0 when
exactly one is, and otherwise the number of matching positions up to
the shorter length divided by the longer length — always in `[0, 1]`;
and Scenario 3: `GET /users/` and `DELETE /users/` (after placeholder
cleaning) have similarity 1, so the CRUD data-flow score is 0.8. -/
theorem c5_path_similarity_formula :
    (∀ p1 p2 : String,
      (pathSegments p1 = [] ∧ pathSegments p2 = [] →
        calculate_path_similarity p1 p2 = 1) ∧
      ((pathSegments p1 = [] ∧ pathSegments p2 ≠ []) ∨
        (pathSegments p1 ≠ [] ∧ pathSegments p2 = []) →
        calculate_path_similarity p1 p2 = 0) ∧
      (pathSegments p1 ≠ [] → pathSegments p2 ≠ [] →
        calculate_path_similarity p1 p2 =
          (((List.range (min (pathSegments p1).length (pathSegments p2).length)).countP
              (fun i => (pathSegments p1).getD i "" == (pathSegments p2).getD i "" ||
                are_similar_segments ((pathSegments p1).getD i "")
                  ((pathSegments p2).getD i ""))) : ℚ) /
            ((max (pathSegments p1).length (pathSegments p2).length : ℕ) : ℚ)) ∧
      0 ≤ calculate_path_similarity p1 p2 ∧ calculate_path_similarity p1 p2 ≤ 1) ∧
    clean_path "/users/{id}" = "/users" ∧
    calculate_path_similarity (clean_path scnUsersGet.path)
      (clean_path scnUsersDelete.path) = 1 ∧
    analyze_crud_relationship scnUsersGet scnUsersDelete = 8/10 := by
  have hbounds : ∀ p1 p2 : String,
      0 ≤ calculate_path_similarity p1 p2 ∧ calculate_path_similarity p1 p2 ≤ 1 := by
    intro p1 p2
    by_cases h1 : pathSegments p1 = [] <;> by_cases h2 : pathSegments p2 = []
    · simp [calculate_path_similarity, h1, h2]
    · simp [calculate_path_similarity, h1, h2]
    · simp [calculate_path_similarity, h1, h2]
    · have hcle : commonSegmentCount (pathSegments p1) (pathSegments p2) ≤
          max (pathSegments p1).length (pathSegments p2).length := by
        calc commonSegmentCount (pathSegments p1) (pathSegments p2)
            ≤ ((pathSegments p1).zip (pathSegments p2)).length :=
              List.countP_le_length _
          _ = min (pathSegments p1).length (pathSegments p2).length :=
              List.length_zip _ _
          _ ≤ max (pathSegments p1).length (pathSegments p2).length := min_le_max
      have hmaxpos : 0 < max (pathSegments p1).length (pathSegments p2).length :=
        lt_of_lt_of_le (List.length_pos.mpr h1) (le_max_left _ _)
      simp only [calculate_path_similarity, h1, h2, false_and, and_false, if_false,
        false_or, or_false, if_neg h1, if_neg h2]
      constructor
      · apply div_nonneg
        · exact_mod_cast Nat.zero_le _
        · exact_mod_cast Nat.zero_le _
      · rw [div_le_one (by exact_mod_cast hmaxpos)]
        exact_mod_cast hcle
  have hsimfix : calculate_path_similarity (clean_path scnUsersGet.path)
      (clean_path scnUsersDelete.path) = 1 := by
    have hg : pathSegments (clean_path scnUsersGet.path) = ["users"] := by decide
    have hd : pathSegments (clean_path scnUsersDelete.path) = ["users"] := by decide
    have hc : commonSegmentCount ["users"] ["users"] = 1 := by decide
    simp [calculate_path_similarity, hg, hd, hc]
  refine ⟨?_, by decide, hsimfix, ?_⟩
  · intro p1 p2
    refine ⟨?_, ?_, ?_, hbounds p1 p2⟩
    · rintro ⟨h1, h2⟩
      simp [calculate_path_similarity, h1, h2]
    · rintro (⟨h1, h2⟩ | ⟨h1, h2⟩) <;> simp [calculate_path_similarity, h1, h2]
    · intro h1 h2
      simp only [calculate_path_similarity, if_neg (by tauto : ¬(pathSegments p1 = [] ∧
          pathSegments p2 = [])), if_neg (by tauto : ¬(pathSegments p1 = [] ∨
          pathSegments p2 = []))]
      rw [commonSegmentCount,
        countP_zip_eq (fun a b => a == b || are_similar_segments a b)]
  · rw [crud_eq_ite, if_pos]
    refine ⟨by rw [hsimfix]; norm_num, by decide, by decide, by decide⟩

/-- Witness for C5 at two concrete path pairs (both-empty and
one-empty). -/
theorem c5_path_similarity_formula_witness :
    calculate_path_similarity "" "" = 1 ∧ calculate_path_similarity "/x" "" = 0 :=
  ⟨(c5_path_similarity_formula.1 "" "").1 ⟨by decide, by decide⟩,
    (c5_path_similarity_formula.1 "/x" "").2.1 (Or.inr ⟨by decide, by decide⟩)⟩

/-! ## Symmetry lemmas -/

theorem analyze_common_fields_comm (e1 e2 : Endpoint) :
    analyze_common_fields e1 e2 = analyze_common_fields e2 e1 := by
  unfold analyze_common_fields
  rcases h1 : extract_fields_from_endpoint e1 with _ | f1 <;>
    rcases h2 : extract_fields_from_endpoint e2 with _ | f2 <;>
      simp [h1, h2]
  rw [Finset.inter_comm f2 f1, Finset.union_comm f2 f1]

theorem calculate_schema_similarity_comm (s1 s2 : JVal) :
    calculate_schema_similarity s1 s2 = calculate_schema_similarity s2 s1 := by
  unfold calculate_schema_similarity
  rcases h1 : extract_fields_from_schema s1 "" with _ | l1 <;>
    rcases h2 : extract_fields_from_schema s2 "" with _ | l2 <;>
      simp [h1, h2]
  by_cases e1 : l1 = [] <;> by_cases e2 : l2 = [] <;>
    simp [e1, e2, Finset.inter_comm l2.toFinset l1.toFinset,
      Finset.union_comm l2.toFinset l1.toFinset]

theorem analyze_schema_similarity_comm (e1 e2 : Endpoint) :
    analyze_schema_similarity e1 e2 = analyze_schema_similarity e2 e1 := by
  unfold analyze_schema_similarity
  rcases h1 : get_combined_schema e1 with _ | (_ | s1) <;>
    rcases h2 : get_combined_schema e2 with _ | (_ | s2) <;>
      simp [h1, h2]
  rw [calculate_schema_similarity_comm s2 s1]

theorem are_similar_segments_comm (a b : String) :
    are_similar_segments a b = are_similar_segments b a := by
  unfold are_similar_segments
  by_cases la : 3 < a.length <;> by_cases lb : 3 < b.length <;>
    simp [la, lb, Bool.or_comm, Bool.and_comm, and_comm, or_comm]

theorem countP_zip_comm (p : String → String → Bool)
    (hsym : ∀ a b, p a b = p b a) :
    ∀ l1 l2 : List String,
      (l1.zip l2).countP (fun q => p q.1 q.2) =
        (l2.zip l1).countP (fun q => p q.1 q.2)
  | [], l2 => by cases l2 <;> simp
  | a :: t1, [] => by simp
  | a :: t1, b :: t2 => by
      simp only [List.zip_cons_cons, List.countP_cons]
      rw [countP_zip_comm p hsym t1 t2, hsym a b]

theorem commonSegmentCount_comm (l1 l2 : List String) :
    commonSegmentCount l1 l2 = commonSegmentCount l2 l1 := by
  have hsym : ∀ a b : String, (a == b || are_similar_segments a b)
      = (b == a || are_similar_segments b a) := by
    intro a b
    rw [are_similar_segments_comm]
    by_cases h : a = b
    · subst h; rfl
    · have h1 : (a == b) = false := by simp [h]
      have h2 : (b == a) = false := by simp [Ne.symm h]
      rw [h1, h2]
  exact countP_zip_comm (fun a b => a == b || are_similar_segments a b) hsym l1 l2

theorem calculate_path_similarity_comm (x y : String) :
    calculate_path_similarity x y = calculate_path_similarity y x := by
  unfold calculate_path_similarity
  by_cases h1 : pathSegments x = [] <;> by_cases h2 : pathSegments y = [] <;>
    simp [h1, h2, commonSegmentCount_comm, Nat.max_comm]

theorem analyze_crud_relationship_comm (e1 e2 : Endpoint) :
    analyze_crud_relationship e1 e2 = analyze_crud_relationship e2 e1 := by
  rw [crud_eq_ite, crud_eq_ite, calculate_path_similarity_comm]
  refine if_congr ?_ rfl rfl
  constructor <;> rintro ⟨hs, ha, hb, hne⟩ <;> exact ⟨hs, hb, ha, Ne.symm hne⟩

/-- The data-flow analysis raises on `(e1, e2)` exactly when some
computed direction's compatibility raises — a condition symmetric in
the pair. -/
theorem analyze_data_flow_eq_none_iff (e1 e2 : Endpoint) :
    analyze_data_flow e1 e2 = none ↔
      ((truthy e1.response_schema && truthy e2.request_schema) = true ∧
        calculate_schema_compatibility e1.response_schema e2.request_schema = none) ∨
      ((truthy e2.response_schema && truthy e1.request_schema) = true ∧
        calculate_schema_compatibility e2.response_schema e1.request_schema = none) := by
  unfold analyze_data_flow
  by_cases t12 : truthy e1.response_schema && truthy e2.request_schema <;>
    by_cases t21 : truthy e2.response_schema && truthy e1.request_schema <;>
      rcases h12 : calculate_schema_compatibility e1.response_schema e2.request_schema
        with _ | c12 <;>
        rcases h21 : calculate_schema_compatibility e2.response_schema e1.request_schema
          with _ | c21 <;>
          simp [t12, t21, h12, h21]

theorem analyze_data_flow_score_comm (e1 e2 : Endpoint) :
    (analyze_data_flow e1 e2).map DataFlowResult.score =
      (analyze_data_flow e2 e1).map DataFlowResult.score := by
  rcases hd1 : analyze_data_flow e1 e2 with _ | r1 <;>
    rcases hd2 : analyze_data_flow e2 e1 with _ | r2
  · rfl
  · exact absurd (hd2 ▸ (analyze_data_flow_eq_none_iff e2 e1).mpr
      (Or.symm ((analyze_data_flow_eq_none_iff e1 e2).mp hd1))) (by simp)
  · exact absurd (hd1 ▸ (analyze_data_flow_eq_none_iff e1 e2).mpr
      (Or.symm ((analyze_data_flow_eq_none_iff e2 e1).mp hd2))) (by simp)
  · obtain ⟨a, b, hab1, hab2, -, -, hs1⟩ := analyze_data_flow_score_eq e1 e2 r1 hd1
    obtain ⟨a', b', hab1', hab2', -, -, hs2⟩ := analyze_data_flow_score_eq e2 e1 r2 hd2
    have hba : b' = a := by
      rw [hab1] at hab2'
      exact (Option.some.injEq _ _).mp hab2'.symm
    have hab : a' = b := by
      rw [hab2] at hab1'
      exact (Option.some.injEq _ _).mp hab1'.symm
    simp only [Option.map_some']
    rw [hs1, hs2, hba, hab, analyze_crud_relationship_comm e2 e1,
      max_comm b a]

/-- C7: scoring a pair in either order produces the same typed scores
(including raising in the same cases); only metadata such as the flow
direction may differ between the two orders. -/
theorem c7_score_pair_symmetric (e1 e2 : Endpoint) :
    (analyze_endpoint_pair e1 e2).map (List.map (fun tc => (tc.1, tc.2.score))) =
      (analyze_endpoint_pair e2 e1).map (List.map (fun tc => (tc.1, tc.2.score))) := by
  unfold analyze_endpoint_pair
  by_cases hid : e1.id = e2.id
  · rw [if_pos hid, if_pos hid.symm]
  · rw [if_neg hid, if_neg (Ne.symm hid)]
    rw [analyze_common_fields_comm e1 e2, analyze_schema_similarity_comm e1 e2]
    rcases hcf : analyze_common_fields e2 e1 with _ | cf
    · simp
    · rcases hss : analyze_schema_similarity e2 e1 with _ | ss
      · simp
      · have hdfc := analyze_data_flow_score_comm e1 e2
        rcases hdf1 : analyze_data_flow e1 e2 with _ | df1 <;>
          rcases hdf2 : analyze_data_flow e2 e1 with _ | df2 <;>
            rw [hdf1, hdf2] at hdfc <;> simp only [Option.map_some', Option.map_none'] at hdfc
        · exact absurd hdfc (by simp)
        · exact absurd hdfc (by simp)
        · injection hdfc with hsc
          simp only [Option.bind_eq_bind, Option.some_bind, Option.map_some']
          rw [hsc]
          by_cases hd : 0 < df2.score <;> simp [hd]

/-! ## Concrete evaluation of Scenario 1's two-endpoint corpus -/

theorem scn_common_eval :
    analyze_common_fields scnEndpointA scnEndpointB = some ⟨1, idNameFields⟩ := by
  have hA : extract_fields_from_endpoint scnEndpointA = some idNameFields := by decide
  have hB : extract_fields_from_endpoint scnEndpointB = some idNameFields := by decide
  have hii : idNameFields ∩ idNameFields = idNameFields := by decide
  have huu : idNameFields ∪ idNameFields = idNameFields := by decide
  have hcard : idNameFields.card = 2 := by decide
  have hne : ¬(idNameFields = ∅) := by decide
  simp only [analyze_common_fields, hA, hB, hii, huu, hcard, Option.bind_eq_bind,
    Option.some_bind]
  rw [if_neg hne, if_pos (by norm_num)]
  norm_num

theorem scn_schema_sim_eval :
    analyze_schema_similarity scnEndpointA scnEndpointB = some ⟨1⟩ := by
  have hA : get_combined_schema scnEndpointA = some (some scnCombined) := by decide
  have hB : get_combined_schema scnEndpointB = some (some scnCombined) := by decide
  have hl : extract_fields_from_schema scnCombined "" = some ["id", "name"] := by decide
  have hcalc : calculate_schema_similarity scnCombined scnCombined = some 1 := by
    simp only [calculate_schema_similarity, hl, Option.bind_eq_bind, Option.some_bind]
    rw [if_neg (by decide), if_neg (by decide), if_neg (by decide)]
    norm_num [show ((["id", "name"].toFinset ∩ ["id", "name"].toFinset :
        Finset String)).card = 2 from by decide,
      show ((["id", "name"].toFinset ∪ ["id", "name"].toFinset :
        Finset String)).card = 2 from by decide]
  simp [analyze_schema_similarity, hA, hB, hcalc]

theorem scn_crud_eval : analyze_crud_relationship scnEndpointA scnEndpointB = 0 := by
  rw [crud_eq_ite, if_neg]
  rintro ⟨-, -, -, hne⟩
  exact hne rfl

theorem scn_data_flow_eval :
    analyze_data_flow scnEndpointA scnEndpointB = some ⟨0, none⟩ := by
  have t12 : (truthy scnEndpointA.response_schema && truthy scnEndpointB.request_schema)
      = false := by decide
  have t21 : (truthy scnEndpointB.response_schema && truthy scnEndpointA.request_schema)
      = false := by decide
  have hncr : ¬((0 : ℚ) < analyze_crud_relationship scnEndpointA scnEndpointB) := by
    rw [scn_crud_eval]
    exact lt_irrefl 0
  simp [analyze_data_flow, t12, t21, hncr]

theorem scn_pair_eval :
    analyze_endpoint_pair scnEndpointA scnEndpointB =
      some [(RelationshipType.common_fields, ⟨1, idNameFields, none⟩),
            (RelationshipType.similar_schema, ⟨1, ∅, none⟩)] := by
  have hid : ¬(scnEndpointA.id = scnEndpointB.id) := by decide
  rw [analyze_endpoint_pair, if_neg hid]
  simp only [scn_common_eval, scn_schema_sim_eval, scn_data_flow_eval,
    Option.bind_eq_bind, Option.some_bind]
  norm_num

/-- The two relationship rows the scan persists for Scenario 1's
corpus. -/
def scnRelCF : Relationship := ⟨1, 2, RelationshipType.common_fields, idNameFields, 1⟩

def scnRelSS : Relationship := ⟨1, 2, RelationshipType.similar_schema, ∅, 1⟩

theorem scn_analyze_all_eval :
    analyze_all_relationships similarity_threshold [scnEndpointA, scnEndpointB] =
      some ([scnRelCF, scnRelSS], ⟨2, 2, 1, 1, 0⟩) := by
  have hpairs : pairsOf [scnEndpointA, scnEndpointB] = [(scnEndpointA, scnEndpointB)] := by
    simp [pairsOf]
  have hle : similarity_threshold ≤ (1 : ℚ) := by norm_num [similarity_threshold]
  rw [analyze_all_relationships, hpairs, processPairs]
  simp only [scn_pair_eval, Option.bind_eq_bind, Option.some_bind]
  rw [show persistCandidates similarity_threshold scnEndpointA scnEndpointB
      [(RelationshipType.common_fields, ⟨1, idNameFields, none⟩),
       (RelationshipType.similar_schema, ⟨1, ∅, none⟩)]
      ([], ⟨[scnEndpointA, scnEndpointB].length, 0, 0, 0, 0⟩) =
      ([scnRelCF, scnRelSS], ⟨2, 2, 1, 1, 0⟩) from ?_]
  · rw [processPairs]
  · simp only [persistCandidates, List.foldl_cons, List.foldl_nil]
    rw [if_pos hle, if_pos hle]
    rfl

/-! ## Counter bookkeeping (for the summary invariant) -/

theorem addRelationship_counts (e1 e2 : Endpoint) (tc : RelationshipType × Candidate)
    (acc : List Relationship × AnalysisResults)
    (h : acc.2.relationships_created =
      acc.2.common_fields_found + acc.2.similar_schemas + acc.2.data_flow_patterns) :
    (addRelationship e1 e2 tc acc).2.relationships_created =
      (addRelationship e1 e2 tc acc).2.common_fields_found +
        (addRelationship e1 e2 tc acc).2.similar_schemas +
        (addRelationship e1 e2 tc acc).2.data_flow_patterns := by
  rcases tc with ⟨t, c⟩
  rcases t <;> simp [addRelationship] <;> omega

theorem persistCandidates_counts (θ : ℚ) (e1 e2 : Endpoint) :
    ∀ (cands : List (RelationshipType × Candidate))
      (acc : List Relationship × AnalysisResults),
      acc.2.relationships_created =
        acc.2.common_fields_found + acc.2.similar_schemas + acc.2.data_flow_patterns →
      (persistCandidates θ e1 e2 cands acc).2.relationships_created =
        (persistCandidates θ e1 e2 cands acc).2.common_fields_found +
          (persistCandidates θ e1 e2 cands acc).2.similar_schemas +
          (persistCandidates θ e1 e2 cands acc).2.data_flow_patterns
  | [], acc => fun h => h
  | tc :: rest, acc => by
      intro h
      simp only [persistCandidates, List.foldl_cons]
      by_cases hsc : θ ≤ tc.2.score
      · rw [if_pos hsc]
        exact persistCandidates_counts θ e1 e2 rest _ (addRelationship_counts e1 e2 tc acc h)
      · rw [if_neg hsc]
        exact persistCandidates_counts θ e1 e2 rest acc h

theorem processPairs_counts (θ : ℚ) :
    ∀ (l : List (Endpoint × Endpoint)) (acc out : List Relationship × AnalysisResults),
      processPairs θ l acc = some out →
      acc.2.relationships_created =
        acc.2.common_fields_found + acc.2.similar_schemas + acc.2.data_flow_patterns →
      out.2.relationships_created =
        out.2.common_fields_found + out.2.similar_schemas + out.2.data_flow_patterns
  | [], acc, out => by
      intro h hinv
      simp only [processPairs, Option.some.injEq] at h
      rw [← h]
      exact hinv
  | (e1, e2) :: rest, acc, out => by
      intro h hinv
      simp only [processPairs, Option.bind_eq_bind, Option.bind_eq_some] at h
      obtain ⟨cands, hcands, hrest⟩ := h
      exact processPairs_counts θ rest _ out hrest
        (persistCandidates_counts θ e1 e2 cands acc hinv)

/-- C10: in every summary the scan returns, `relationships_created`
equals the sum of the three per-type counters — each persisted row
bumps the total and exactly one per-type counter. -/
theorem c10_created_equals_type_sum (θ : ℚ) (endpoints : List Endpoint)
    (rels : List Relationship) (res : AnalysisResults)
    (h : analyze_all_relationships θ endpoints = some (rels, res)) :
    res.relationships_created =
      res.common_fields_found + res.similar_schemas + res.data_flow_patterns :=
  processPairs_counts θ (pairsOf endpoints) ([], ⟨endpoints.length, 0, 0, 0, 0⟩)
    (rels, res) h rfl

/-- Witness for C10 on Scenario 1's two-endpoint corpus (2 = 1 + 1 + 0). -/
theorem c10_created_equals_type_sum_witness :
    (AnalysisResults.mk 2 2 1 1 0).relationships_created =
      (AnalysisResults.mk 2 2 1 1 0).common_fields_found +
        (AnalysisResults.mk 2 2 1 1 0).similar_schemas +
        (AnalysisResults.mk 2 2 1 1 0).data_flow_patterns :=
  c10_created_equals_type_sum similarity_threshold [scnEndpointA, scnEndpointB]
    [scnRelCF, scnRelSS] ⟨2, 2, 1, 1, 0⟩ scn_analyze_all_eval

/-! ## Crash states of the scan -/

/-- Replaying the staged-inserts-then-final-commit tail from the
post-clear-commit state: any truncation short of the final commit shows
the empty committed state; reaching the final commit shows all rows. -/
theorem replay_adds (cur : List Relationship) :
    ∀ (rels : List Relationship) (k : ℕ),
      replayEvents cur [] ((rels.map StoreEvent.add ++ [StoreEvent.commit]).take k) =
        if rels.length < k then cur ++ rels else []
  | [], 0 => by simp [replayEvents]
  | [], k + 1 => by simp [replayEvents]
  | r :: rest, 0 => by simp [replayEvents]
  | r :: rest, k + 1 => by
      simp only [List.map_cons, List.cons_append, List.take_succ_cons, replayEvents,
        List.append_eq]
      rw [replay_adds (cur ++ [r]) rest k]
      by_cases h : rest.length < k
      · rw [if_pos h, if_pos (by simpa using Nat.succ_lt_succ h)]
        simp
      · rw [if_neg h, if_neg (by simpa using fun hh => h (Nat.lt_of_succ_lt_succ hh))]

/-- C8 (amended): the observable store state after a crash `k` events
into the scan is the pre-scan set (crash before the first commit), the
**empty** set (crash after the clear's commit but before the final
commit), or the fully rebuilt set — the emptied intermediate state is
observable because the code deletes and commits before rebuilding. -/
theorem c8_crash_states (θ : ℚ) (endpoints : List Endpoint)
    (pre : List Relationship) (evs : List StoreEvent) (k : ℕ)
    (h : analysis_events θ endpoints = some evs) :
    visibleAfterCrash pre evs k = pre ∨ visibleAfterCrash pre evs k = [] ∨
      ∃ rels res, analyze_all_relationships θ endpoints = some (rels, res) ∧
        visibleAfterCrash pre evs k = rels := by
  simp only [analysis_events, Option.bind_eq_bind, Option.bind_eq_some,
    Option.some.injEq] at h
  obtain ⟨⟨rels, res⟩, hall, hevs⟩ := h
  rw [← hevs]
  match k with
  | 0 => exact Or.inl rfl
  | 1 => exact Or.inl rfl
  | k + 2 =>
      right
      simp only [visibleAfterCrash, List.cons_append, List.take_succ_cons, replayEvents,
        List.append_eq, List.nil_append]
      rw [replay_adds [] rels k]
      by_cases hlen : rels.length < k
      · exact Or.inr ⟨rels, res, hall, by rw [if_pos hlen]; simp⟩
      · exact Or.inl (by rw [if_neg hlen])

/-- Witness for C8's amended statement at Scenario 1's corpus and a
crash three events in. -/
theorem c8_crash_states_witness :
    visibleAfterCrash [scnPreRel] [StoreEvent.clear, StoreEvent.commit,
        StoreEvent.add scnRelCF, StoreEvent.add scnRelSS, StoreEvent.commit] 3
      = [scnPreRel] ∨
    visibleAfterCrash [scnPreRel] [StoreEvent.clear, StoreEvent.commit,
        StoreEvent.add scnRelCF, StoreEvent.add scnRelSS, StoreEvent.commit] 3
      = [] ∨
    ∃ rels res, analyze_all_relationships similarity_threshold
        [scnEndpointA, scnEndpointB] = some (rels, res) ∧
      visibleAfterCrash [scnPreRel] [StoreEvent.clear, StoreEvent.commit,
        StoreEvent.add scnRelCF, StoreEvent.add scnRelSS, StoreEvent.commit] 3 = rels :=
  c8_crash_states similarity_threshold [scnEndpointA, scnEndpointB] [scnPreRel]
    [StoreEvent.clear, StoreEvent.commit, StoreEvent.add scnRelCF,
      StoreEvent.add scnRelSS, StoreEvent.commit] 3
    (by simp [analysis_events, scn_analyze_all_eval])

/-- C8 as stated is false on the code: crashing Scenario 1's scan two
events in (right after the clear's commit) leaves the store observably
empty — neither the pre-scan set nor the rebuilt set. -/
theorem c8_crash_atomicity_counterexample :
    analysis_events similarity_threshold [scnEndpointA, scnEndpointB] =
      some [StoreEvent.clear, StoreEvent.commit, StoreEvent.add scnRelCF,
        StoreEvent.add scnRelSS, StoreEvent.commit] ∧
    visibleAfterCrash [scnPreRel] [StoreEvent.clear, StoreEvent.commit,
      StoreEvent.add scnRelCF, StoreEvent.add scnRelSS, StoreEvent.commit] 2 = [] ∧
    visibleAfterCrash [scnPreRel] [StoreEvent.clear, StoreEvent.commit,
      StoreEvent.add scnRelCF, StoreEvent.add scnRelSS, StoreEvent.commit] 5
      = [scnRelCF, scnRelSS] ∧
    ([] : List Relationship) ≠ [scnPreRel] ∧
    ([] : List Relationship) ≠ [scnRelCF, scnRelSS] := by
  refine ⟨by simp [analysis_events, scn_analyze_all_eval], rfl, rfl, ?_, ?_⟩ <;> decide

/-! ## Structure of the persisted relationship list -/

/-- The rows one pair contributes: its candidates at or above the
threshold, rowed up with `source = e1.id`, `target = e2.id`. -/
def pairRels (θ : ℚ) (e1 e2 : Endpoint) (cands : List (RelationshipType × Candidate)) :
    List Relationship :=
  (cands.filter (fun tc => decide (θ ≤ tc.2.score))).map
    (fun tc => ⟨e1.id, e2.id, tc.1, tc.2.common_fields, tc.2.score⟩)

/-- The per-pair row lists of a whole scan. -/
def pairRelsAll (θ : ℚ) : List (Endpoint × Endpoint) → Option (List (List Relationship))
  | [] => some []
  | (e1, e2) :: rest => do
      let cands ← analyze_endpoint_pair e1 e2
      let rl ← pairRelsAll θ rest
      some (pairRels θ e1 e2 cands :: rl)

theorem persistCandidates_fst (θ : ℚ) (e1 e2 : Endpoint) :
    ∀ (cands : List (RelationshipType × Candidate))
      (acc : List Relationship × AnalysisResults),
      (persistCandidates θ e1 e2 cands acc).1 = acc.1 ++ pairRels θ e1 e2 cands
  | [], acc => by simp [persistCandidates, pairRels]
  | tc :: rest, acc => by
      simp only [persistCandidates, List.foldl_cons]
      by_cases hsc : θ ≤ tc.2.score
      · rw [if_pos hsc]
        rw [show (List.foldl (fun a tc => if θ ≤ tc.2.score then addRelationship e1 e2 tc a
            else a) (addRelationship e1 e2 tc acc) rest) =
          persistCandidates θ e1 e2 rest (addRelationship e1 e2 tc acc) from rfl]
        rw [persistCandidates_fst θ e1 e2 rest (addRelationship e1 e2 tc acc)]
        simp [addRelationship, pairRels, hsc]
      · rw [if_neg hsc]
        rw [show (List.foldl (fun a tc => if θ ≤ tc.2.score then addRelationship e1 e2 tc a
            else a) acc rest) = persistCandidates θ e1 e2 rest acc from rfl]
        rw [persistCandidates_fst θ e1 e2 rest acc]
        simp [pairRels, hsc]

theorem processPairs_flatten (θ : ℚ) :
    ∀ (l : List (Endpoint × Endpoint)) (acc out : List Relationship × AnalysisResults),
      processPairs θ l acc = some out →
      ∃ rll : List (List Relationship),
        pairRelsAll θ l = some rll ∧ out.1 = acc.1 ++ rll.flatten
  | [], acc, out => by
      intro h
      simp only [processPairs, Option.some.injEq] at h
      exact ⟨[], rfl, by rw [← h]; simp⟩
  | (e1, e2) :: rest, acc, out => by
      intro h
      simp only [processPairs, Option.bind_eq_bind, Option.bind_eq_some] at h
      obtain ⟨cands, hcands, hrest⟩ := h
      obtain ⟨rll, hrll, hout⟩ := processPairs_flatten θ rest _ out hrest
      refine ⟨pairRels θ e1 e2 cands :: rll, ?_, ?_⟩
      · simp [pairRelsAll, hcands, hrll]
      · rw [hout, persistCandidates_fst θ e1 e2 cands acc]
        simp [List.append_assoc]

theorem pairRels_mem {θ : ℚ} {e1 e2 : Endpoint}
    {cands : List (RelationshipType × Candidate)} {r : Relationship}
    (h : r ∈ pairRels θ e1 e2 cands) :
    r.source_endpoint_id = e1.id ∧ r.target_endpoint_id = e2.id ∧
      θ ≤ r.similarity_score := by
  simp only [pairRels, List.mem_map, List.mem_filter] at h
  obtain ⟨tc, ⟨-, hsc⟩, hr⟩ := h
  rw [← hr]
  exact ⟨rfl, rfl, of_decide_eq_true hsc⟩

/-- A self pair (by id) contributes no candidates, hence no rows. -/
theorem analyze_endpoint_pair_self {e1 e2 : Endpoint}
    {cands : List (RelationshipType × Candidate)}
    (h : analyze_endpoint_pair e1 e2 = some cands) (hid : e1.id = e2.id) :
    cands = [] := by
  rw [analyze_endpoint_pair, if_pos hid] at h
  simp only [Option.some.injEq] at h
  exact h.symm

theorem analyze_endpoint_pair_types_nodup {e1 e2 : Endpoint}
    {cands : List (RelationshipType × Candidate)}
    (h : analyze_endpoint_pair e1 e2 = some cands) :
    (cands.map Prod.fst).Nodup := by
  by_cases hid : e1.id = e2.id
  · rw [analyze_endpoint_pair_self h hid]
    simp
  · rw [analyze_endpoint_pair, if_neg hid] at h
    simp only [Option.bind_eq_bind, Option.bind_eq_some, Option.some.injEq] at h
    obtain ⟨cf, -, ss, -, df, -, hmain⟩ := h
    rw [← hmain]
    by_cases h1 : 0 < cf.score <;> by_cases h2 : 0 < ss.score <;>
      by_cases h3 : 0 < df.score <;> simp [h1, h2, h3]

theorem pairRels_pairwise_types {θ : ℚ} {e1 e2 : Endpoint}
    {cands : List (RelationshipType × Candidate)}
    (h : analyze_endpoint_pair e1 e2 = some cands) :
    (pairRels θ e1 e2 cands).Pairwise
      (fun r1 r2 => r1.relationship_type ≠ r2.relationship_type) := by
  have hnd : ((cands.filter (fun tc => decide (θ ≤ tc.2.score))).map Prod.fst).Nodup :=
    List.Nodup.sublist (List.Sublist.map Prod.fst (List.filter_sublist cands))
      (analyze_endpoint_pair_types_nodup h)
  rw [pairRels, List.pairwise_map]
  exact (List.pairwise_map.mp hnd).imp (fun hne => hne)

theorem pairsOf_mem :
    ∀ (eps : List Endpoint) (a b : Endpoint), (a, b) ∈ pairsOf eps →
      ∃ (i j : ℕ) (hi : i < eps.length) (hj : j < eps.length),
        i < j ∧ eps.get ⟨i, hi⟩ = a ∧ eps.get ⟨j, hj⟩ = b
  | [], a, b => by simp [pairsOf]
  | e :: rest, a, b => by
      intro h
      rw [pairsOf, List.mem_append] at h
      rcases h with h | h
      · simp only [List.mem_map] at h
        obtain ⟨x, hx, hex⟩ := h
        injection hex with he hx2
        obtain ⟨j0, hxj⟩ := List.mem_iff_get.mp hx
        refine ⟨0, j0.1 + 1, by simp, by simp [Nat.succ_lt_succ j0.2],
          Nat.succ_pos _, he, ?_⟩
        simpa using hxj.trans hx2
      · obtain ⟨i, j, hi, hj, hij, ha, hb⟩ := pairsOf_mem rest a b h
        exact ⟨i + 1, j + 1, Nat.succ_lt_succ hi, Nat.succ_lt_succ hj,
          Nat.succ_lt_succ hij, by simpa using ha, by simpa using hb⟩

theorem pairsOf_mem_components :
    ∀ (eps : List Endpoint) (p : Endpoint × Endpoint), p ∈ pairsOf eps →
      p.1 ∈ eps ∧ p.2 ∈ eps
  | [], p => by simp [pairsOf]
  | e :: rest, p => by
      intro h
      rw [pairsOf, List.mem_append] at h
      rcases h with h | h
      · simp only [List.mem_map] at h
        obtain ⟨x, hx, hex⟩ := h
        rw [← hex]
        exact ⟨List.mem_cons_self _ _, List.mem_cons_of_mem _ hx⟩
      · have hc := pairsOf_mem_components rest p h
        exact ⟨List.mem_cons_of_mem _ hc.1, List.mem_cons_of_mem _ hc.2⟩

/-- The unordered id pair a scanned pair writes into its rows. -/
def pairKey (p : Endpoint × Endpoint) : Finset ℕ := {p.1.id, p.2.id}

theorem pairsOf_pairwise_keys :
    ∀ (eps : List Endpoint), (eps.map Endpoint.id).Nodup →
      (pairsOf eps).Pairwise (fun p q => pairKey p ≠ pairKey q)
  | [], _ => by simp [pairsOf]
  | e :: rest, hnd => by
      have hnd' : (rest.map Endpoint.id).Nodup := (List.nodup_cons.mp hnd).2
      have hein : e.id ∉ rest.map Endpoint.id := (List.nodup_cons.mp hnd).1
      rw [pairsOf, List.pairwise_append]
      refine ⟨?_, pairsOf_pairwise_keys rest hnd', ?_⟩
      · rw [List.pairwise_map]
        have hpw : rest.Pairwise (fun x y => x.id ≠ y.id) := List.pairwise_map.mp hnd'
        refine hpw.imp_of_mem ?_
        intro x y hx hy hxy hkey
        apply hxy
        have hxe : x.id ≠ e.id := fun hh =>
          hein (hh ▸ List.mem_map_of_mem Endpoint.id hx)
        have hxin : x.id ∈ ({e.id, y.id} : Finset ℕ) := by
          rw [show ({e.id, y.id} : Finset ℕ) = pairKey (e, y) from rfl, ← hkey]
          simp [pairKey]
        simp only [Finset.mem_insert, Finset.mem_singleton] at hxin
        rcases hxin with hh | hh
        · exact absurd hh hxe
        · exact hh
      · rintro ⟨u, x⟩ hx q hq hkey
        simp only [List.mem_map] at hx
        obtain ⟨x0, hx0, hux⟩ := hx
        injection hux with hu hx1
        subst hu
        subst hx1
        have hq12 := pairsOf_mem_components rest q hq
        have he1 : e.id ∈ pairKey (e, x0) := by simp [pairKey]
        rw [hkey] at he1
        simp only [pairKey, Finset.mem_insert, Finset.mem_singleton] at he1
        rcases he1 with hh | hh
        · exact hein (hh ▸ List.mem_map_of_mem Endpoint.id hq12.1)
        · exact hein (hh ▸ List.mem_map_of_mem Endpoint.id hq12.2)

theorem pairRelsAll_spec (θ : ℚ) :
    ∀ (l : List (Endpoint × Endpoint)) (rll : List (List Relationship)),
      pairRelsAll θ l = some rll →
      List.Forall₂ (fun p rl => ∃ cands, analyze_endpoint_pair p.1 p.2 = some cands ∧
        rl = pairRels θ p.1 p.2 cands) l rll
  | [], rll => by
      intro h
      simp only [pairRelsAll, Option.some.injEq] at h
      rw [← h]
      exact List.Forall₂.nil
  | (e1, e2) :: rest, rll => by
      intro h
      simp only [pairRelsAll, Option.bind_eq_bind, Option.bind_eq_some,
        Option.some.injEq] at h
      obtain ⟨cands, hcands, rl, hrl, hmain⟩ := h
      rw [← hmain]
      exact List.Forall₂.cons ⟨cands, hcands, rfl⟩ (pairRelsAll_spec θ rest rl hrl)

theorem forall2_mem_right {α β : Type} {R : α → β → Prop} :
    ∀ {l : List α} {m : List β}, List.Forall₂ R l m → ∀ b ∈ m, ∃ a ∈ l, R a b := by
  intro l m hf
  induction hf with
  | nil => simp
  | cons hR hf ih =>
      intro b hb
      rcases List.mem_cons.mp hb with hb | hb
      · exact ⟨_, List.mem_cons_self _ _, hb ▸ hR⟩
      · obtain ⟨a, ha, hra⟩ := ih b hb
        exact ⟨a, List.mem_cons_of_mem _ ha, hra⟩

theorem pairwise_of_forall2 {α β : Type} {R : α → β → Prop} {P : α → α → Prop}
    {Q : β → β → Prop}
    (hcomp : ∀ a a' b b', R a b → R a' b' → P a a' → Q b b') :
    ∀ {l : List α} {m : List β}, List.Forall₂ R l m → l.Pairwise P → m.Pairwise Q := by
  intro l m hf
  induction hf with
  | nil => exact fun _ => List.Pairwise.nil
  | cons hR hf ih =>
      intro hp
      rcases List.pairwise_cons.mp hp with ⟨hhead, htail⟩
      refine List.Pairwise.cons ?_ (ih htail)
      intro b' hb'
      obtain ⟨a', ha', hR'⟩ := forall2_mem_right hf b' hb'
      exact hcomp _ _ _ _ hR hR' (hhead a' ha')

/-- C6: every persisted relationship scores at or above the threshold,
links two distinct endpoint ids, runs from an earlier endpoint to a
later one in corpus order, and no unordered endpoint pair gets two
rows of the same type (the `(type, unordered id pair)` projections of
the persisted rows are pairwise distinct). -/
theorem c6_persisted_invariants (θ : ℚ) (endpoints : List Endpoint)
    (rels : List Relationship) (res : AnalysisResults)
    (hnd : (endpoints.map Endpoint.id).Nodup)
    (h : analyze_all_relationships θ endpoints = some (rels, res)) :
    (∀ r ∈ rels,
      θ ≤ r.similarity_score ∧
      r.source_endpoint_id ≠ r.target_endpoint_id ∧
      ∃ (i j : ℕ) (hi : i < endpoints.length) (hj : j < endpoints.length),
        i < j ∧ (endpoints.get ⟨i, hi⟩).id = r.source_endpoint_id ∧
          (endpoints.get ⟨j, hj⟩).id = r.target_endpoint_id) ∧
    (rels.map (fun r => (r.relationship_type,
      ({r.source_endpoint_id, r.target_endpoint_id} : Finset ℕ)))).Nodup := by
  obtain ⟨rll, hrll, hflat⟩ := processPairs_flatten θ (pairsOf endpoints) _ (rels, res) h
  have hrels : rels = rll.flatten := by simpa using hflat
  have hf2 := pairRelsAll_spec θ (pairsOf endpoints) rll hrll
  constructor
  · intro r hr
    rw [hrels] at hr
    obtain ⟨rl, hrlmem, hrin⟩ := List.mem_flatten.mp hr
    obtain ⟨p, hp, cands, hcands, hrleq⟩ := forall2_mem_right hf2 rl hrlmem
    subst hrleq
    obtain ⟨hsrc, htgt, hsc⟩ := pairRels_mem hrin
    have hidne : p.1.id ≠ p.2.id := by
      intro hid
      rw [analyze_endpoint_pair_self hcands hid] at hrin
      simp [pairRels] at hrin
    obtain ⟨i, j, hi, hj, hij, ha, hb⟩ := pairsOf_mem endpoints p.1 p.2 (by
      rcases p with ⟨a, b⟩
      exact hp)
    exact ⟨hsc, by rw [hsrc, htgt]; exact hidne,
      i, j, hi, hj, hij, by rw [ha, hsrc], by rw [hb, htgt]⟩
  · rw [hrels, List.map_flatten, List.nodup_flatten]
    constructor
    · intro l' hl'
      simp only [List.mem_map] at hl'
      obtain ⟨rl, hrlmem, hmap⟩ := hl'
      obtain ⟨p, hp, cands, hcands, hrleq⟩ := forall2_mem_right hf2 rl hrlmem
      subst hrleq
      rw [← hmap, List.Nodup, List.pairwise_map]
      exact (pairRels_pairwise_types hcands).imp
        (fun hne heq => hne (congrArg Prod.fst heq))
    · rw [List.pairwise_map]
      have hkeys := pairsOf_pairwise_keys endpoints hnd
      refine pairwise_of_forall2 ?_ hf2 hkeys
      intro p p' rl rl' hR hR' hkey
      obtain ⟨cands, hcands, hrleq⟩ := hR
      obtain ⟨cands', hcands', hrleq'⟩ := hR'
      subst hrleq
      subst hrleq'
      intro x hx hx'
      simp only [List.mem_map] at hx hx'
      obtain ⟨r1, hr1, hx1⟩ := hx
      obtain ⟨r2, hr2, hx2⟩ := hx'
      obtain ⟨hs1, ht1, -⟩ := pairRels_mem hr1
      obtain ⟨hs2, ht2, -⟩ := pairRels_mem hr2
      apply hkey
      have hsnd : ({r1.source_endpoint_id, r1.target_endpoint_id} : Finset ℕ) =
          ({r2.source_endpoint_id, r2.target_endpoint_id} : Finset ℕ) :=
        congrArg Prod.snd (hx1.trans hx2.symm)
      rw [hs1, ht1, hs2, ht2] at hsnd
      exact hsnd

/-- Witness for C6: the common-fields row persisted for Scenario 1's
corpus satisfies the invariants. -/
theorem c6_persisted_invariants_witness :
    similarity_threshold ≤ scnRelCF.similarity_score ∧
    scnRelCF.source_endpoint_id ≠ scnRelCF.target_endpoint_id ∧
    ∃ (i j : ℕ) (hi : i < ([scnEndpointA, scnEndpointB] : List Endpoint).length)
      (hj : j < ([scnEndpointA, scnEndpointB] : List Endpoint).length),
      i < j ∧ (([scnEndpointA, scnEndpointB] : List Endpoint).get ⟨i, hi⟩).id =
          scnRelCF.source_endpoint_id ∧
        (([scnEndpointA, scnEndpointB] : List Endpoint).get ⟨j, hj⟩).id =
          scnRelCF.target_endpoint_id :=
  (c6_persisted_invariants similarity_threshold [scnEndpointA, scnEndpointB]
    [scnRelCF, scnRelSS] ⟨2, 2, 1, 1, 0⟩ (by decide) scn_analyze_all_eval).1
    scnRelCF (by simp)

/-! ## The cross-service field report: accumulator lemmas -/

/-- Lookup in the accumulator (the defaultdict keyed by field). -/
def findInfo (acc : List FieldInfo) (f : JVal) : Option FieldInfo :=
  acc.find? (fun fi => decide (fi.field_name = f))

/-- The frequency recorded for a field (0 when absent). -/
def freqOf (acc : List FieldInfo) (f : JVal) : ℕ :=
  ((findInfo acc f).map FieldInfo.frequency).getD 0

/-- The service-name set recorded for a field (empty when absent). -/
def servicesOf (acc : List FieldInfo) (f : JVal) : Finset String :=
  ((findInfo acc f).map FieldInfo.services).getD ∅

/-- Whether an endpoint's extracted field set contains `f` (false when
extraction raises; all uses are under a hypothesis that the report
succeeded, which forces every extraction to succeed). -/
def endpointHasField (e : Endpoint) (f : JVal) : Bool :=
  match extract_field_list_from_endpoint e with
  | some lst => decide (f ∈ lst)
  | none => false

theorem findInfo_bumpField_same (f : JVal) (s : Service) (e : Endpoint) (t : String) :
    ∀ acc : List FieldInfo,
      findInfo (bumpField acc f s e t) f =
        some (updateFieldInfo (((findInfo acc f).getD (emptyFieldInfo f))) s e t)
  | [] => by
      have hname : (updateFieldInfo (emptyFieldInfo f) s e t).field_name = f := rfl
      simp [bumpField, findInfo, List.find?, hname]
  | fi :: rest => by
      by_cases hf : fi.field_name = f
      · simp [bumpField, findInfo, List.find?, hf, updateFieldInfo]
      · have ih := findInfo_bumpField_same f s e t rest
        simp only [bumpField, if_neg hf]
        simp only [findInfo, List.find?] at ih ⊢
        simp [hf, ih]

theorem findInfo_bumpField_other {g f : JVal} (hne : g ≠ f)
    (s : Service) (e : Endpoint) (t : String) :
    ∀ acc : List FieldInfo,
      findInfo (bumpField acc f s e t) g = findInfo acc g
  | [] => by
      simp [bumpField, findInfo, List.find?, updateFieldInfo, emptyFieldInfo,
        Ne.symm hne]
  | fi :: rest => by
      by_cases hf : fi.field_name = f
      · have hg : ¬(fi.field_name = g) := by rw [hf]; exact Ne.symm hne
        simp [bumpField, findInfo, List.find?, hf, hg, updateFieldInfo, Ne.symm hne]
      · have ih := findInfo_bumpField_other hne s e t rest
        simp only [bumpField, if_neg hf]
        simp only [findInfo, List.find?] at ih ⊢
        by_cases hg : fi.field_name = g <;> simp [hg, ih]

theorem freqOf_bumpField_same (acc : List FieldInfo) (f : JVal) (s : Service)
    (e : Endpoint) (t : String) :
    freqOf (bumpField acc f s e t) f = freqOf acc f + 1 := by
  rw [freqOf, findInfo_bumpField_same]
  rcases h : findInfo acc f with _ | fi <;>
    simp [freqOf, h, updateFieldInfo, emptyFieldInfo]

theorem freqOf_bumpField_other {g f : JVal} (hne : g ≠ f) (acc : List FieldInfo)
    (s : Service) (e : Endpoint) (t : String) :
    freqOf (bumpField acc f s e t) g = freqOf acc g := by
  rw [freqOf, findInfo_bumpField_other hne, freqOf]

theorem servicesOf_bumpField_same (acc : List FieldInfo) (f : JVal) (s : Service)
    (e : Endpoint) (t : String) :
    servicesOf (bumpField acc f s e t) f = insert s.name (servicesOf acc f) := by
  rw [servicesOf, findInfo_bumpField_same]
  rcases h : findInfo acc f with _ | fi <;>
    simp [servicesOf, h, updateFieldInfo, emptyFieldInfo]

theorem servicesOf_bumpField_other {g f : JVal} (hne : g ≠ f) (acc : List FieldInfo)
    (s : Service) (e : Endpoint) (t : String) :
    servicesOf (bumpField acc f s e t) g = servicesOf acc g := by
  rw [servicesOf, findInfo_bumpField_other hne, servicesOf]

theorem foldEndpointFields_freq (s : Service) (e : Endpoint) :
    ∀ (fields : List JVal) (acc out : List FieldInfo),
      foldEndpointFields s e acc fields = some out →
      ∀ g, freqOf out g = freqOf acc g + fields.count g
  | [], acc, out => by
      intro h g
      simp only [foldEndpointFields, Option.some.injEq] at h
      rw [← h]
      simp
  | f :: rest, acc, out => by
      intro h g
      simp only [foldEndpointFields, Option.bind_eq_bind, Option.bind_eq_some] at h
      obtain ⟨t, ht, hrest⟩ := h
      have ih := foldEndpointFields_freq s e rest (bumpField acc f s e t) out hrest g
      rw [ih]
      by_cases hg : g = f
      · subst hg
        rw [freqOf_bumpField_same, List.count_cons_self]
        omega
      · rw [freqOf_bumpField_other hg, List.count_cons_of_ne hg]

theorem foldEndpointFields_services (s : Service) (e : Endpoint) :
    ∀ (fields : List JVal) (acc out : List FieldInfo),
      foldEndpointFields s e acc fields = some out →
      ∀ g, servicesOf out g =
        if g ∈ fields then insert s.name (servicesOf acc g) else servicesOf acc g
  | [], acc, out => by
      intro h g
      simp only [foldEndpointFields, Option.some.injEq] at h
      rw [← h]
      simp
  | f :: rest, acc, out => by
      intro h g
      simp only [foldEndpointFields, Option.bind_eq_bind, Option.bind_eq_some] at h
      obtain ⟨t, ht, hrest⟩ := h
      have ih := foldEndpointFields_services s e rest (bumpField acc f s e t) out hrest g
      rw [ih]
      by_cases hg : g = f
      · subst hg
        by_cases hm : g ∈ rest <;>
          simp [hm, servicesOf_bumpField_same, Finset.insert_idem]
      · by_cases hm : g ∈ rest <;>
          simp [hm, hg, servicesOf_bumpField_other hg]

theorem processEndpointFields_freq {s : Service} {e : Endpoint}
    {acc out : List FieldInfo} (h : processEndpointFields s e acc = some out) (g : JVal) :
    freqOf out g = freqOf acc g + (if endpointHasField e g then 1 else 0) := by
  simp only [processEndpointFields, Option.bind_eq_bind, Option.bind_eq_some] at h
  obtain ⟨lst, hlst, hfold⟩ := h
  rw [foldEndpointFields_freq s e lst.dedup acc out hfold g, List.count_dedup,
    endpointHasField, hlst]
  by_cases hm : g ∈ lst <;> simp [hm]

theorem processEndpointFields_services {s : Service} {e : Endpoint}
    {acc out : List FieldInfo} (h : processEndpointFields s e acc = some out) (g : JVal) :
    servicesOf out g =
      if endpointHasField e g then insert s.name (servicesOf acc g)
      else servicesOf acc g := by
  simp only [processEndpointFields, Option.bind_eq_bind, Option.bind_eq_some] at h
  obtain ⟨lst, hlst, hfold⟩ := h
  rw [foldEndpointFields_services s e lst.dedup acc out hfold g, endpointHasField, hlst]
  by_cases hm : g ∈ lst <;> simp [hm]

theorem foldCorpus_freq :
    ∀ (L : List (Service × Endpoint)) (acc out : List FieldInfo),
      foldCorpus L acc = some out →
      ∀ g, freqOf out g = freqOf acc g + L.countP (fun se => endpointHasField se.2 g)
  | [], acc, out => by
      intro h g
      simp only [foldCorpus, Option.some.injEq] at h
      rw [← h]
      simp
  | (s, e) :: rest, acc, out => by
      intro h g
      simp only [foldCorpus, Option.bind_eq_bind, Option.bind_eq_some] at h
      obtain ⟨acc', hacc', hrest⟩ := h
      rw [foldCorpus_freq rest acc' out hrest g, processEndpointFields_freq hacc' g,
        List.countP_cons]
      by_cases hp : endpointHasField e g <;> (simp [hp]; try omega)

theorem foldCorpus_services :
    ∀ (L : List (Service × Endpoint)) (acc out : List FieldInfo),
      foldCorpus L acc = some out →
      ∀ g, servicesOf out g = servicesOf acc g ∪
        ((L.filter (fun se => endpointHasField se.2 g)).map
          (fun se => se.1.name)).toFinset
  | [], acc, out => by
      intro h g
      simp only [foldCorpus, Option.some.injEq] at h
      rw [← h]
      simp
  | (s, e) :: rest, acc, out => by
      intro h g
      simp only [foldCorpus, Option.bind_eq_bind, Option.bind_eq_some] at h
      obtain ⟨acc', hacc', hrest⟩ := h
      rw [foldCorpus_services rest acc' out hrest g, processEndpointFields_services hacc' g]
      by_cases hp : endpointHasField e g
      · simp only [List.filter_cons, hp, if_pos, List.map_cons, List.toFinset_cons]
        ext x
        simp only [Finset.mem_union, Finset.mem_insert]
        tauto
      · simp [List.filter_cons, hp]

theorem bumpField_names (f : JVal) (s : Service) (e : Endpoint) (t : String) :
    ∀ acc : List FieldInfo,
      (bumpField acc f s e t).map FieldInfo.field_name =
        if f ∈ acc.map FieldInfo.field_name then acc.map FieldInfo.field_name
        else acc.map FieldInfo.field_name ++ [f]
  | [] => by simp [bumpField, updateFieldInfo, emptyFieldInfo]
  | fi :: rest => by
      by_cases hf : fi.field_name = f
      · simp [bumpField, hf, updateFieldInfo]
      · have ih := bumpField_names f s e t rest
        by_cases hm : f ∈ rest.map FieldInfo.field_name <;>
          simp [bumpField, hf, Ne.symm hf, hm, ih]

theorem bumpField_names_nodup {acc : List FieldInfo}
    (hnd : (acc.map FieldInfo.field_name).Nodup) (f : JVal) (s : Service)
    (e : Endpoint) (t : String) :
    ((bumpField acc f s e t).map FieldInfo.field_name).Nodup := by
  rw [bumpField_names]
  by_cases hm : f ∈ acc.map FieldInfo.field_name
  · rw [if_pos hm]
    exact hnd
  · rw [if_neg hm]
    refine List.Nodup.append hnd (List.nodup_singleton f) ?_
    intro a ha hb
    simp only [List.mem_singleton] at hb
    exact hm (hb ▸ ha)

theorem foldEndpointFields_names_nodup (s : Service) (e : Endpoint) :
    ∀ (fields : List JVal) (acc out : List FieldInfo),
      foldEndpointFields s e acc fields = some out →
      (acc.map FieldInfo.field_name).Nodup → (out.map FieldInfo.field_name).Nodup
  | [], acc, out => by
      intro h hnd
      simp only [foldEndpointFields, Option.some.injEq] at h
      rw [← h]
      exact hnd
  | f :: rest, acc, out => by
      intro h hnd
      simp only [foldEndpointFields, Option.bind_eq_bind, Option.bind_eq_some] at h
      obtain ⟨t, ht, hrest⟩ := h
      exact foldEndpointFields_names_nodup s e rest _ out hrest
        (bumpField_names_nodup hnd f s e t)

theorem foldCorpus_names_nodup :
    ∀ (L : List (Service × Endpoint)) (acc out : List FieldInfo),
      foldCorpus L acc = some out →
      (acc.map FieldInfo.field_name).Nodup → (out.map FieldInfo.field_name).Nodup
  | [], acc, out => by
      intro h hnd
      simp only [foldCorpus, Option.some.injEq] at h
      rw [← h]
      exact hnd
  | (s, e) :: rest, acc, out => by
      intro h hnd
      simp only [foldCorpus, Option.bind_eq_bind, Option.bind_eq_some] at h
      obtain ⟨acc', hacc', hrest⟩ := h
      simp only [processEndpointFields, Option.bind_eq_bind, Option.bind_eq_some] at hacc'
      obtain ⟨lst, -, hfold⟩ := hacc'
      exact foldCorpus_names_nodup rest acc' out hrest
        (foldEndpointFields_names_nodup s e lst.dedup acc acc' hfold hnd)

theorem findInfo_self :
    ∀ {acc : List FieldInfo}, (acc.map FieldInfo.field_name).Nodup →
      ∀ {fi : FieldInfo}, fi ∈ acc → findInfo acc fi.field_name = some fi := by
  intro acc
  induction acc with
  | nil => intro _ fi hmem; simp at hmem
  | cons fj rest ih =>
      intro hnd fi hmem
      simp only [List.map_cons, List.nodup_cons] at hnd
      rcases List.mem_cons.mp hmem with hmem | hmem
      · subst hmem
        simp [findInfo, List.find?]
      · have hne : ¬(fj.field_name = fi.field_name) := by
          intro heq
          exact hnd.1 (heq ▸ List.mem_map_of_mem FieldInfo.field_name hmem)
        have := ih hnd.2 hmem
        simp only [findInfo, List.find?] at this ⊢
        simp [hne, this]

theorem sum_indicator_eq_countP {α : Type} (q : α → Bool) :
    ∀ l : List α, (l.map (fun a => if q a then 1 else 0)).sum = l.countP q
  | [] => by simp
  | a :: l => by
      by_cases h : q a <;>
        simp [h, List.countP_cons, sum_indicator_eq_countP q l, Nat.add_comm]

theorem sum_services_countP (services : List Service) (p : Endpoint → Bool) :
    ∀ endpoints : List Endpoint,
      (services.map (fun s =>
        endpoints.countP (fun e => p e && (e.service_id == s.id)))).sum =
      (endpoints.map (fun e =>
        if p e then services.countP (fun s => e.service_id == s.id) else 0)).sum
  | [] => by simp
  | e :: rest => by
      have ih := sum_services_countP services p rest
      simp only [List.countP_cons, List.map_cons, List.sum_cons]
      rw [List.sum_map_add, ih]
      by_cases hp : p e
      · simp only [hp, Bool.true_and, if_true]
        rw [sum_indicator_eq_countP (fun s => e.service_id == s.id) services]
        omega
      · have hp' : p e = false := by simpa using hp
        simp [hp']

theorem countP_services_id_eq_one {services : List Service}
    (hnd : (services.map Service.id).Nodup) {e : Endpoint}
    (hfk : ∃ s ∈ services, e.service_id = s.id) :
    services.countP (fun s => e.service_id == s.id) = 1 := by
  obtain ⟨s, hs, hid⟩ := hfk
  have h1 : services.countP (fun s => e.service_id == s.id) =
      (services.map Service.id).countP (fun i => e.service_id == i) := by
    rw [List.countP_map]
    rfl
  have h2 : (services.map Service.id).countP (fun i => e.service_id == i) =
      (services.map Service.id).count e.service_id := by
    rw [List.count]
    exact List.countP_congr (fun a _ => by
      simp only [beq_iff_eq]
      exact eq_comm)
  rw [h1, h2]
  exact List.count_eq_one_of_mem hnd (hid ▸ List.mem_map_of_mem Service.id hs)

/-- Under the database invariants (service ids unique, every endpoint's
`service_id` a real service), the service-major iteration visits every
endpoint exactly once, so a per-endpoint count over the iteration equals
the same count over the endpoint table. -/
theorem countP_corpusPairs {services : List Service} {endpoints : List Endpoint}
    (hnd : (services.map Service.id).Nodup)
    (hfk : ∀ e ∈ endpoints, ∃ s ∈ services, e.service_id = s.id)
    (p : Endpoint → Bool) :
    (corpusPairs services endpoints).countP (fun se => p se.2) =
      endpoints.countP p := by
  unfold corpusPairs
  rw [List.flatMap_def, List.countP_flatten, List.map_map]
  have hmap : ∀ s ∈ services,
      ((List.countP (fun se : Service × Endpoint => p se.2)) ∘ fun s =>
        ((endpoints.filter (fun e => e.service_id == s.id)).map (fun e => (s, e)))) s =
      endpoints.countP (fun e => p e && (e.service_id == s.id)) := by
    intro s _
    show (((endpoints.filter (fun e => e.service_id == s.id)).map
        (fun e => (s, e))).countP (fun se => p se.2)) = _
    rw [List.countP_map, List.countP_filter]
    exact List.countP_congr (fun a _ => by simp [Function.comp])
  rw [List.map_congr_left hmap, sum_services_countP]
  have hone : endpoints.map (fun e =>
      if p e then services.countP (fun s => e.service_id == s.id) else 0) =
      endpoints.map (fun e => if p e then 1 else 0) :=
    List.map_congr_left (fun e he => by
      rw [countP_services_id_eq_one hnd (hfk e he)])
  rw [hone, sum_indicator_eq_countP]

theorem corpusPairs_mem {services : List Service} {endpoints : List Endpoint}
    {s : Service} {e : Endpoint} :
    (s, e) ∈ corpusPairs services endpoints ↔
      s ∈ services ∧ e ∈ endpoints ∧ e.service_id = s.id := by
  simp only [corpusPairs, List.mem_flatMap, List.mem_map, List.mem_filter,
    Prod.mk.injEq]
  constructor
  · rintro ⟨t, ht, e', ⟨he', hid⟩, hts, hee⟩
    subst hts
    subst hee
    exact ⟨ht, he', by simpa [beq_iff_eq] using hid⟩
  · rintro ⟨hs, he, hid⟩
    exact ⟨s, hs, e, ⟨he, by simp [beq_iff_eq, hid]⟩, rfl, rfl⟩

/-- **C9.** In the cross-service field report each row's frequency is the
number of endpoints whose extracted field set contains the field (every
endpoint counted once, with no per-service deduplication); its service set
is exactly the set of names of services that expose the field through one
of their endpoints; the row is marked cross-service iff that set has more
than one element; the full list is sorted descending by frequency; and the
highlighted subset is its first 20 rows.  The database invariants —
distinct service ids and every endpoint keyed to a listed service — are
hypotheses. -/
theorem c9_cross_service_field_report {services : List Service}
    {endpoints : List Endpoint} {report : FieldReport}
    (hnd : (services.map Service.id).Nodup)
    (hfk : ∀ e ∈ endpoints, ∃ s ∈ services, e.service_id = s.id)
    (h : analyze_common_fields_across_services services endpoints = some report) :
    (∀ entry ∈ report.field_analysis,
        entry.frequency =
          endpoints.countP (fun e => endpointHasField e entry.field_name) ∧
        (∀ n : String, n ∈ entry.services ↔
          ∃ s ∈ services, s.name = n ∧
            ∃ e ∈ endpoints, e.service_id = s.id ∧
              endpointHasField e entry.field_name = true) ∧
        (entry.cross_service = true ↔ 1 < entry.services.card)) ∧
    report.field_analysis.Sorted (fun a b => b.frequency ≤ a.frequency) ∧
    report.most_common_fields = report.field_analysis.take 20 := by
  simp only [analyze_common_fields_across_services, Option.bind_eq_bind,
    Option.bind_eq_some, Option.some.injEq] at h
  obtain ⟨infos, hinfos, hrep⟩ := h
  subst hrep
  have hnodup : (infos.map FieldInfo.field_name).Nodup :=
    foldCorpus_names_nodup _ [] infos hinfos (by simp)
  refine ⟨?_, ?_, rfl⟩
  · intro entry hmem
    have hmem' : entry ∈ infos.map toFieldEntry :=
      (List.perm_insertionSort _ _).mem_iff.mp hmem
    obtain ⟨fi, hfi, hfe⟩ := List.mem_map.mp hmem'
    subst hfe
    have hfind : findInfo infos fi.field_name = some fi := findInfo_self hnodup hfi
    refine ⟨?_, ?_, ?_⟩
    · have hfreq : freqOf infos fi.field_name = fi.frequency := by
        simp [freqOf, hfind]
      have hfreq2 := foldCorpus_freq _ [] infos hinfos fi.field_name
      have hzero : freqOf [] fi.field_name = 0 := by simp [freqOf, findInfo]
      show fi.frequency = endpoints.countP (fun e => endpointHasField e fi.field_name)
      rw [← hfreq, hfreq2, hzero, Nat.zero_add,
        countP_corpusPairs hnd hfk (fun e => endpointHasField e fi.field_name)]
    · intro n
      have hserv : servicesOf infos fi.field_name = fi.services := by
        simp [servicesOf, hfind]
      have hs2 := foldCorpus_services _ [] infos hinfos fi.field_name
      have hzero2 : servicesOf [] fi.field_name = ∅ := by simp [servicesOf, findInfo]
      rw [hzero2, Finset.empty_union] at hs2
      show n ∈ fi.services ↔ _
      rw [← hserv, hs2]
      constructor
      · intro hmem2
        simp only [List.mem_toFinset, List.mem_map, List.mem_filter] at hmem2
        obtain ⟨⟨s, e⟩, ⟨hin, hhas⟩, hname⟩ := hmem2
        obtain ⟨hs, he, hid⟩ := corpusPairs_mem.mp hin
        exact ⟨s, hs, hname, e, he, hid, hhas⟩
      · rintro ⟨s, hs, hname, e, he, hid, hhas⟩
        simp only [List.mem_toFinset, List.mem_map, List.mem_filter]
        exact ⟨(s, e), ⟨corpusPairs_mem.mpr ⟨hs, he, hid⟩, hhas⟩, hname⟩
    · show decide (1 < fi.services.card) = true ↔ 1 < fi.services.card
      exact decide_eq_true_iff
  · haveI : IsTotal FieldEntry (fun a b => b.frequency ≤ a.frequency) :=
      ⟨fun a b => le_total b.frequency a.frequency⟩
    haveI : IsTrans FieldEntry (fun a b => b.frequency ≤ a.frequency) :=
      ⟨fun a b c h1 h2 => le_trans h2 h1⟩
    exact List.sorted_insertionSort _ _

/-- Witness corpus for the report: two services, one endpoint each;
`id` appears on both services, `name` only on the first. -/
def wSvcA : Service := ⟨1, "alpha"⟩

def wSvcB : Service := ⟨2, "beta"⟩

def wEpX : Endpoint := ⟨10, 1, "/x", "GET", idNameSchema, .null, .null⟩

def wEpY : Endpoint :=
  ⟨11, 2, "/y", "POST",
    .obj [("properties", .obj [("id", .obj [("type", .str "integer")])])], .null, .null⟩

def wIdEntry : FieldEntry :=
  ⟨.str "id", 2, {"beta", "alpha"}, {"POST /y", "GET /x"}, {"identifier"}, true⟩

def wNameEntry : FieldEntry :=
  ⟨.str "name", 1, {"alpha"}, {"GET /x"}, {"name"}, false⟩

def wReport : FieldReport :=
  { total_unique_fields := 2
    cross_service_fields := 1
    most_common_fields := [wIdEntry, wNameEntry]
    field_analysis := [wIdEntry, wNameEntry] }

/-- The C9 theorem instantiated on the two-service witness corpus. -/
theorem c9_cross_service_field_report_witness :
    (([wSvcA, wSvcB].map Service.id).Nodup ∧
      (∀ e ∈ [wEpX, wEpY], ∃ s ∈ [wSvcA, wSvcB], e.service_id = s.id) ∧
      analyze_common_fields_across_services [wSvcA, wSvcB] [wEpX, wEpY] =
        some wReport) ∧
    ((∀ entry ∈ wReport.field_analysis,
        entry.frequency =
          [wEpX, wEpY].countP (fun e => endpointHasField e entry.field_name) ∧
        (∀ n : String, n ∈ entry.services ↔
          ∃ s ∈ [wSvcA, wSvcB], s.name = n ∧
            ∃ e ∈ [wEpX, wEpY], e.service_id = s.id ∧
              endpointHasField e entry.field_name = true) ∧
        (entry.cross_service = true ↔ 1 < entry.services.card)) ∧
      wReport.field_analysis.Sorted (fun a b => b.frequency ≤ a.frequency) ∧
      wReport.most_common_fields = wReport.field_analysis.take 20) :=
  ⟨⟨by decide, by decide, by rfl⟩,
    c9_cross_service_field_report (by decide) (by decide) (by rfl)⟩
